import Mathlib

/-!
# go-pprint: the recursive value formatter of `pprint.go`

A shallow embedding of `formatValue`, `formatList`, `formatMap` and
`formatStruct`, followed by theorems about the text they produce.

## Modelling decisions

* A Go value reaches the formatter as an `interface{}` and is inspected through
  `reflect`.  `GoValue` records exactly what the formatter reads from it: the
  `Kind`, the type names (`Type.String()`, `Type.Name()`), the children, and the
  texts that `fmt` produces for the verb `%#v` (the Debug-Repr, which is the work
  of the `fmt` package and is carried as data).
* `GoValue` is an inductive type, so every value is a finite tree; a
  self-referential Go value (on which the source recurses without bound) has no
  counterpart here.
* A Go panic is an `Except.error`.
* A map is the list of its entries in the order in which `MapKeys` returned the
  keys; each entry pairs the `%#v` text of the key with `MapIndex(key)`: the
  value found, or the zero `Value` for a key that `MapIndex` does not find (a
  key that is not equal to itself, such as NaN), on which `Interface()` panics.
* `formatList`, `formatMap` and `formatStruct` receive the parts of the value
  that they read (element type and items; key type, element type and entries;
  fields) in place of the value itself.
* Lengths and indices are natural numbers; the comparisons `i < n-1` of the
  source are evaluated over `Int`, where `n-1` may be `-1`.
* `len` of a Go string counts bytes (`String.utf8ByteSize`); the width of a
  `fmt` verb counts characters (`String.length`).
-/

namespace PPrint

/-! ## Data model -/

/-- The type `PPColor` of the source (`type PPColor string`). -/
abbrev PPColor := String

def colorReset : PPColor := "\x1b[0m"
def colorRed : PPColor := "\x1b[31m"
def colorGreen : PPColor := "\x1b[32m"
def colorYellow : PPColor := "\x1b[33m"
def colorBlue : PPColor := "\x1b[34m"

/-- The enumeration `reflect.Kind`. -/
inductive Kind where
  | Invalid | Bool | Int | Int8 | Int16 | Int32 | Int64
  | Uint | Uint8 | Uint16 | Uint32 | Uint64 | Uintptr
  | Float32 | Float64 | Complex64 | Complex128
  | Array | Chan | Func | Interface | Map | Pointer | Slice
  | String | Struct | UnsafePointer
  deriving DecidableEq, Repr

/-- The kinds of the values that hold no children the formatter looks at: every
`reflect.Kind` except `Invalid`, `Array`, `Slice`, `Map` and `Struct`. -/
inductive ScalarKind where
  | Bool | Int | Int8 | Int16 | Int32 | Int64
  | Uint | Uint8 | Uint16 | Uint32 | Uint64 | Uintptr
  | Float32 | Float64 | Complex64 | Complex128
  | Chan | Func | Interface | Pointer | String | UnsafePointer
  deriving DecidableEq, Repr

def ScalarKind.toKind : ScalarKind → Kind
  | .Bool => .Bool | .Int => .Int | .Int8 => .Int8 | .Int16 => .Int16
  | .Int32 => .Int32 | .Int64 => .Int64
  | .Uint => .Uint | .Uint8 => .Uint8 | .Uint16 => .Uint16 | .Uint32 => .Uint32
  | .Uint64 => .Uint64 | .Uintptr => .Uintptr
  | .Float32 => .Float32 | .Float64 => .Float64
  | .Complex64 => .Complex64 | .Complex128 => .Complex128
  | .Chan => .Chan | .Func => .Func | .Interface => .Interface
  | .Pointer => .Pointer | .String => .String | .UnsafePointer => .UnsafePointer

/-- What the formatter reads of a `reflect.Type`: `Name()` (empty for an unnamed
type such as `[]int`) and `String()`. -/
structure GoType where
  name : String
  string : String
  deriving DecidableEq, Repr

/-- A Go value as `reflect` shows it to the formatter.

* `nil`: the nil interface; `reflect.ValueOf(nil)` is the zero `Value`, of kind
  `Invalid`.
* `scalar kind type repr`: a value of any other childless kind, its dynamic type
  and its `%#v` text.
* `array elem items`, `slice elem items`: the declared element type and the
  items, `items[i]` being `list.Index(i).Interface()`.
* `map key elem entries`: the declared key and element types and the entries in
  `MapKeys` order, each the `%#v` text of the key with `MapIndex(key)`: `some v`
  when the key is found, `v` being `MapIndex(key).Interface()`, and `none` for
  the zero `Value` that `MapIndex` returns when it does not find the key.
* `struct fields`: the fields in declaration order, each with its name, the
  `%#v` text of `s.Field(i)` and the field's value. -/
inductive GoValue where
  | nil : GoValue
  | scalar (kind : ScalarKind) (type : GoType) (repr : String) : GoValue
  | array (elem : GoType) (items : List GoValue) : GoValue
  | slice (elem : GoType) (items : List GoValue) : GoValue
  | map (key elem : GoType) (entries : List (String × Option GoValue)) : GoValue
  | struct (fields : List (String × String × GoValue)) : GoValue

/-- `reflect.ValueOf(value).Kind()`. -/
def GoValue.kind : GoValue → Kind
  | .nil => .Invalid
  | .scalar k _ _ => k.toKind
  | .array _ _ => .Array
  | .slice _ _ => .Slice
  | .map _ _ _ => .Map
  | .struct _ => .Struct

/-- The run-time panics the formatter can raise. -/
inductive Panic where
  /-- `keys[0]` on an empty slice of keys. -/
  | indexOutOfRange
  /-- `reflect.Value.Type` on the zero `Value`. -/
  | zeroValueType
  /-- `reflect.Value.Interface` on the zero `Value`. -/
  | zeroValueInterface
  deriving DecidableEq, Repr

deriving instance DecidableEq for Except

/-! ## The `fmt` verbs the formatter uses -/

/-- The verb `%d` on a non-negative integer (also `strconv.Itoa`). -/
def fmtD (n : Nat) : String := toString n

/-- A verb with a width (`%*d`, `%*s`) and no `-` flag: the text is
right-justified, padded on the left with spaces up to `width` characters, and
left alone when it is already that long. -/
def fmtWidth (width : Nat) (s : String) : String :=
  String.mk (List.replicate (width - s.length) ' ') ++ s

/-! ## The formatter -/

/-- The second `range numFields` loop of `formatStruct`. -/
def formatStructLoop (color : PPColor) (inline : Bool) (maxNameLength numFields : Nat) :
    List (String × String × GoValue) → Nat → String → String
  | [], _, output => output
  | (fieldName, fieldRepr, _) :: rest, i, output =>
    if inline then
      let output := output ++ (color ++ fieldName ++ colorReset ++ ": " ++ fieldRepr)
      let output := if (i : Int) < (numFields : Int) - 1 then output ++ ", " else output
      formatStructLoop color inline maxNameLength numFields rest (i + 1) output
    else
      formatStructLoop color inline maxNameLength numFields rest (i + 1)
        (output ++ ("  " ++ color ++ fmtWidth maxNameLength fieldName ++ colorReset ++ ": " ++
          fieldRepr ++ "\n"))

/-- The first `range numFields` loop of `formatStruct` (lines 153-158): the
greatest `len` of a field name, in bytes. -/
def maxNameLength (fields : List (String × String × GoValue)) : Nat :=
  fields.foldl (fun maxNameLength f =>
    if f.1.utf8ByteSize > maxNameLength then f.1.utf8ByteSize else maxNameLength) 0

/-- The function `formatStruct` of the source, the struct given by its
fields.  Field names are measured in bytes (`len`); the width of `%*s` counts
characters. -/
def formatStruct (fields : List (String × String × GoValue)) (color : PPColor)
    (inline : Bool) : String :=
  let numFields := fields.length
  let maxNameLength := maxNameLength fields
  let output := ""
  let output :=
    if !inline then
      output ++ ("Struct with " ++ color ++ fmtD numFields ++ colorReset ++ " fields:\n\n")
    else output
  let output := output ++ "\x7b"
  let output := if !inline then output ++ "\n" else output
  let output := formatStructLoop color inline maxNameLength numFields fields 0 output
  let output := output ++ "\x7d"
  if !inline then output ++ "\n\n" else output

/-- The part of `formatList` before its loop (lines 79-86): the opening brace
when inline, the header otherwise. -/
def formatListHead (elType : GoType) (len : Nat) (color : PPColor) (listType : String)
    (inline : Bool) : String :=
  let output := ""
  if inline then output ++ "\x7b"
  else output ++ (listType ++ " with " ++ color ++ fmtD len ++ colorReset ++
    " elements of type " ++ color ++ elType.string ++ colorReset ++ ":\n\n")

/-- The part of `formatList` after its loop (lines 100-105); `formatMap` ends
the same way (lines 136-141). -/
def formatListTail (inline : Bool) (output : String) : String :=
  if inline then output ++ "\x7d" else output ++ "\n"

/-- The part of `formatMap` between `keys[0]` and its loop (lines 114-123). -/
def formatMapHead (keyT : GoType) (valueType : String) (len : Nat) (color : PPColor)
    (inline : Bool) : String :=
  let keyType := keyT.string
  let output := ""
  if inline then output ++ "\x7b"
  else output ++ ("Map: " ++ color ++ fmtD len ++ colorReset ++ " elements, key type " ++
    color ++ keyType ++ colorReset ++ ", value type " ++ color ++ valueType ++
    colorReset ++ ":\n\n")

mutual

/-- The function `formatValue` of the source: dispatch on the kind, then the
general case.  The calls of `formatList` and `formatMap` are written out (the
same expressions as the bodies of `formatList` and `formatMap` below), so that
the recursion is structural. -/
def formatValue : GoValue → PPColor → Bool → Except Panic String
  | .array elem items, color, inline =>
    (formatListLoop color inline (fmtD items.length).length items.length items 0
      (formatListHead elem items.length color "Array" inline)).map (formatListTail inline)
  | .slice elem items, color, inline =>
    (formatListLoop color inline (fmtD items.length).length items.length items 0
      (formatListHead elem items.length color "Slice" inline)).map (formatListTail inline)
  | .map key elem entries, color, inline =>
    if 0 < entries.length then
      (formatMapLoop color inline entries.length entries 0
        (formatMapHead key elem.name entries.length color inline)).map (formatListTail inline)
    else .error .indexOutOfRange
  | .struct fields, color, inline => .ok (formatStruct fields color inline)
  | .scalar _ type repr, color, inline =>
    if inline then .ok repr
    else .ok (repr ++ " (" ++ color ++ type.string ++ colorReset ++ ")\n\n")
  | .nil, _, inline =>
    if inline then .ok "<nil>"
    else .error .zeroValueType

/-- The `for` loop of `formatList` (lines 87-99), at index `i` with the items
from `i` on still to do; `len` is `list.Len()`. -/
def formatListLoop (color : PPColor) (inline : Bool) (colWidth len : Nat) :
    List GoValue → Nat → String → Except Panic String
  | [], _, output => .ok output
  | v :: rest, i, output =>
    match formatValue v color true with
    | .error e => .error e
    | .ok item =>
      if inline then
        let output := output ++ (color ++ "[" ++ fmtD i ++ "]" ++ colorReset ++ " " ++ item)
        let output := if (i : Int) < (len : Int) - 1 then output ++ ", " else output
        formatListLoop color inline colWidth len rest (i + 1) output
      else
        formatListLoop color inline colWidth len rest (i + 1)
          (output ++ (color ++ "[" ++ fmtWidth colWidth (fmtD i) ++ "]" ++ colorReset ++
            " " ++ item ++ "\n"))

/-- The call `formatValue(mp.MapIndex(key).Interface(), color, true)` of line
125, on what `MapIndex(key)` returned: `Interface()` panics on the zero
`Value`. -/
def formatIndexed : Option GoValue → PPColor → Except Panic String
  | none, _ => .error .zeroValueInterface
  | some v, color => formatValue v color true

/-- The `range keys` loop of `formatMap` (lines 124-135); `len` is
`len(keys)`. -/
def formatMapLoop (color : PPColor) (inline : Bool) (len : Nat) :
    List (String × Option GoValue) → Nat → String → Except Panic String
  | [], _, output => .ok output
  | (key, found) :: rest, index, output =>
    match formatIndexed found color with
    | .error e => .error e
    | .ok item =>
      if inline then
        let output := output ++ (color ++ "[" ++ key ++ "]" ++ colorReset ++ " " ++ item)
        let output := if (index : Int) < (len : Int) - 1 then output ++ ", " else output
        formatMapLoop color inline len rest (index + 1) output
      else
        formatMapLoop color inline len rest (index + 1)
          (output ++ (color ++ "[" ++ key ++ "]" ++ colorReset ++ " " ++ item ++ "\n"))

end

/-- The function `formatList` of the source, the list given by its element
type and its items: `colWidth` is the length of the decimal text of
`list.Len()`. -/
def formatList (elType : GoType) (items : List GoValue) (color : PPColor)
    (listType : String) (inline : Bool) : Except Panic String :=
  let colWidth := (fmtD items.length).length
  (formatListLoop color inline colWidth items.length items 0
    (formatListHead elType items.length color listType inline)).map (formatListTail inline)

/-- The function `formatMap` of the source, the map given by its declared key
and element types and its entries: `keys[0]` panics when there is no key. -/
def formatMap (keyT elemT : GoType) (entries : List (String × Option GoValue))
    (color : PPColor)
    (inline : Bool) : Except Panic String :=
  let valueType := elemT.name
  if 0 < entries.length then
    (formatMapLoop color inline entries.length entries 0
      (formatMapHead keyT valueType entries.length color inline)).map (formatListTail inline)
  else .error .indexOutOfRange

/-- The general case of `formatValue` (lines 62-68), for a value whose `%#v`
text is `repr` and whose `reflect.Value` has the type `type`; the zero `Value`
has none, and `Type()` panics on it. -/
def formatScalar (repr : String) (type : Option GoType) (color : PPColor) (inline : Bool) :
    Except Panic String :=
  if inline then .ok repr
  else
    match type with
    | none => .error .zeroValueType
    | some valueType => .ok (repr ++ " (" ++ color ++ valueType.string ++ colorReset ++ ")\n\n")

/-! ## The public functions

Standard output is the text written so far; `fmt.Print` of a string appends it.
A panic in `formatValue` leaves the function before anything is written. -/

/-- The function `PPrintRed` of the source. -/
def PPrintRed (value : GoValue) (stdout : String) : Except Panic String :=
  (formatValue value colorRed false).map fun text => stdout ++ text

/-- The function `PPrintGreen` of the source. -/
def PPrintGreen (value : GoValue) (stdout : String) : Except Panic String :=
  (formatValue value colorGreen false).map fun text => stdout ++ text

/-- The function `PPrintYellow` of the source. -/
def PPrintYellow (value : GoValue) (stdout : String) : Except Panic String :=
  (formatValue value colorYellow false).map fun text => stdout ++ text

/-- The function `PPrintBlue` of the source. -/
def PPrintBlue (value : GoValue) (stdout : String) : Except Panic String :=
  (formatValue value colorBlue false).map fun text => stdout ++ text

/-! ## Definitions used to state the properties -/

/-- The text with its ANSI colour markers removed ("colors stripped"): every
run from an ESC character up to and including the next `m` is dropped.  The
flag says whether the scan is inside such a run. -/
def stripColorsAux : Bool → List Char → List Char
  | _, [] => []
  | true, ch :: rest => if ch = 'm' then stripColorsAux false rest else stripColorsAux true rest
  | false, ch :: rest =>
    if ch = '\x1b' then stripColorsAux true rest else ch :: stripColorsAux false rest

/-- The text with its ANSI colour markers removed. -/
def stripColors (s : String) : String := String.mk (stripColorsAux false s.data)

/-- An `int` of Go, as the formatter sees it. -/
def goInt (n : Nat) : GoValue := .scalar .Int ⟨"int", "int"⟩ (toString n)

/-- A `string` of Go whose `%#v` text is `repr`. -/
def goString (repr : String) : GoValue := .scalar .String ⟨"string", "string"⟩ repr

/-- An item line of the Block rendering of a list. -/
def listLine (color : PPColor) (colWidth : Nat) (p : Nat × String) : String :=
  color ++ "[" ++ fmtWidth colWidth (fmtD p.1) ++ "]" ++ colorReset ++ " " ++ p.2 ++ "\n"

/-- An item fragment of the Inline rendering of a list. -/
def listFragment (color : PPColor) (p : Nat × String) : String :=
  color ++ "[" ++ fmtD p.1 ++ "]" ++ colorReset ++ " " ++ p.2

/-- The index width as the specification words it: the number of decimal digits
needed to print `count - 1`, at least 1. -/
def specIndexWidth (count : Nat) : Nat := max 1 (fmtD (count - 1)).length

/-- An entry fragment of the Inline rendering of a map. -/
def mapFragment (color : PPColor) (p : (String × Option GoValue) × String) : String :=
  color ++ "[" ++ p.1.1 ++ "]" ++ colorReset ++ " " ++ p.2

/-- An entry line of the Block rendering of a map. -/
def mapLine (color : PPColor) (p : (String × Option GoValue) × String) : String :=
  color ++ "[" ++ p.1.1 ++ "]" ++ colorReset ++ " " ++ p.2 ++ "\n"

/-- The escape sequences of a text, read left to right: each run from an ESC
character up to and including the next `m`.  The state is the run read so far,
if the scan is inside one; a run the text ends in is reported as it stands. -/
def escapeSeqsAux : Option (List Char) → List Char → List String
  | none, [] => []
  | some acc, [] => [String.mk acc]
  | none, ch :: rest =>
    if ch = '\x1b' then escapeSeqsAux (some [ch]) rest else escapeSeqsAux none rest
  | some acc, ch :: rest =>
    if ch = 'm' then String.mk (acc ++ [ch]) :: escapeSeqsAux none rest
    else escapeSeqsAux (some (acc ++ [ch])) rest

/-- The escape sequences that occur in a text, in order. -/
def escapeSeqs (s : String) : List String := escapeSeqsAux none s.data

/-- A colour marker: an ESC character, then characters other than `m`, then
`m`, as the four colours and Reset of the source are. -/
def IsColorMarker (color : PPColor) : Prop :=
  ∃ body : List Char, color.data = '\x1b' :: (body ++ ['m']) ∧ 'm' ∉ body

/-- The text holds no ESC character. -/
def noEsc (s : String) : Bool := !s.data.contains '\x1b'

mutual

/-- No text that the formatter copies from the value (Debug-Reprs, type names,
field names) holds an ESC character. -/
def GoValue.escapeFree : GoValue → Bool
  | .nil => true
  | .scalar _ type repr => noEsc type.string && noEsc repr
  | .array elem items => noEsc elem.string && escapeFreeItems items
  | .slice elem items => noEsc elem.string && escapeFreeItems items
  | .map key elem entries => noEsc key.string && noEsc elem.name && escapeFreeEntries entries
  | .struct fields => escapeFreeFields fields

/-- Every item is `escapeFree`. -/
def escapeFreeItems : List GoValue → Bool
  | [] => true
  | v :: rest => v.escapeFree && escapeFreeItems rest

/-- Every key text is free of ESC and every value found is `escapeFree`. -/
def escapeFreeEntries : List (String × Option GoValue) → Bool
  | [] => true
  | (key, none) :: rest => noEsc key && escapeFreeEntries rest
  | (key, some v) :: rest => noEsc key && v.escapeFree && escapeFreeEntries rest

/-- Every field name and every field Debug-Repr is free of ESC (the field
values are not rendered). -/
def escapeFreeFields : List (String × String × GoValue) → Bool
  | [] => true
  | (fieldName, fieldRepr, _) :: rest => noEsc fieldName && noEsc fieldRepr && escapeFreeFields rest

end

/-- The colour markers of a text are balanced: scanning it, followed by any
text `rest`, finds `k` pairs `color`, Reset and then what the scan of `rest`
finds. -/
def Balanced (color : PPColor) (s : String) : Prop :=
  ∃ k : Nat, ∀ rest : List Char,
    escapeSeqsAux none (s.data ++ rest) =
      (List.replicate k [color, colorReset]).flatten ++ escapeSeqsAux none rest

/-- The slice `[]interface{}{7, map[string]int{"a": 1}}`. -/
def sampleSlice : GoValue :=
  .slice ⟨"", "interface \x7b\x7d"⟩
    [.scalar .Int ⟨"int", "int"⟩ "7",
      .map ⟨"string", "string"⟩ ⟨"int", "int"⟩
        [("\"a\"", some (.scalar .Int ⟨"int", "int"⟩ "1"))]]

/-- The four shapes of the specification (its `Kind`). -/
inductive Shape where
  | Scalar | Sequence | KeyedMapping | Record
  deriving DecidableEq, Repr

/-- The tests of `formatValue` on `reflect.ValueOf(value).Kind()` (lines
46-61), in their order: the shape the value is dispatched on. -/
def classify (value : GoValue) : Shape :=
  if value.kind = .Array then .Sequence
  else if value.kind = .Slice then .Sequence
  else if value.kind = .Map then .KeyedMapping
  else if value.kind = .Struct then .Record
  else .Scalar

/-- The map `map[string][]int{"a": {1}}`: its element type `[]int` has no
name. -/
def sampleMapOfSlices : GoValue :=
  .map ⟨"string", "string"⟩ ⟨"", "[]int"⟩
    [("\"a\"", some (.slice ⟨"int", "int"⟩ [.scalar .Int ⟨"int", "int"⟩ "1"]))]

/-- The text holds no line break. -/
def noNewline (s : String) : Bool := !s.data.contains '\n'

mutual

/-- No text that the Inline rendering copies from the value holds a line break:
the Debug-Reprs of the scalars, of the keys and of the fields, and the field
names (which are identifiers in Go). -/
def GoValue.newlineFree : GoValue → Bool
  | .nil => true
  | .scalar _ _ repr => noNewline repr
  | .array _ items => newlineFreeItems items
  | .slice _ items => newlineFreeItems items
  | .map _ _ entries => newlineFreeEntries entries
  | .struct fields => newlineFreeFields fields

/-- Every item is `newlineFree`. -/
def newlineFreeItems : List GoValue → Bool
  | [] => true
  | v :: rest => v.newlineFree && newlineFreeItems rest

/-- Every key text is free of line breaks and every value found is
`newlineFree`. -/
def newlineFreeEntries : List (String × Option GoValue) → Bool
  | [] => true
  | (key, none) :: rest => noNewline key && newlineFreeEntries rest
  | (key, some v) :: rest => noNewline key && v.newlineFree && newlineFreeEntries rest

/-- Every field name and every field Debug-Repr is free of line breaks. -/
def newlineFreeFields : List (String × String × GoValue) → Bool
  | [] => true
  | (fieldName, fieldRepr, _) :: rest =>
    noNewline fieldName && noNewline fieldRepr && newlineFreeFields rest

end

/-- A text with slots for the colour: `none` is a slot, `some text` a piece of
text.  `fill color template` puts `color` in every slot. -/
def fill (color : PPColor) : List (Option String) → String
  | [] => ""
  | none :: rest => color ++ fill color rest
  | some text :: rest => text ++ fill color rest

/-- The text `f color` is one template, the same for every colour, with the
colour in its slots. -/
def Templated (f : PPColor → String) : Prop :=
  ∃ template : List (Option String), ∀ color : PPColor, f color = fill color template

/-- The result `f color` is one panic, the same for every colour, or one
template with the colour in its slots. -/
def TemplatedE (f : PPColor → Except Panic String) : Prop :=
  ∃ template : Except Panic (List (Option String)),
    ∀ color : PPColor, f color = template.map (fill color)

/-! ## Auxiliary facts about strings -/

theorem join_cons (a : String) (l : List String) : String.join (a :: l) = a ++ String.join l := by
  apply String.ext
  simp [String.data_join]

theorem join_nil : String.join [] = "" := rfl

theorem intercalate_go_append (x y s : String) (l : List String) :
    String.intercalate.go (x ++ y) s l = x ++ String.intercalate.go y s l := by
  induction l generalizing y with
  | nil => rfl
  | cons a l ih =>
    simp only [String.intercalate.go]
    rw [String.append_assoc x y s, String.append_assoc x (y ++ s) a, ih]

theorem intercalate_cons_cons (s a b : String) (l : List String) :
    s.intercalate (a :: b :: l) = a ++ (s ++ s.intercalate (b :: l)) := by
  simp only [String.intercalate, String.intercalate.go]
  rw [String.append_assoc a s b, intercalate_go_append, intercalate_go_append]

theorem intercalate_singleton (s a : String) : s.intercalate [a] = a := rfl

/-! ## `formatValue` calls `formatList` and `formatMap` -/

theorem formatValue_array (elem : GoType) (items : List GoValue) (color : PPColor)
    (inline : Bool) :
    formatValue (.array elem items) color inline = formatList elem items color "Array" inline := by
  simp [formatValue, formatList]

theorem formatValue_slice (elem : GoType) (items : List GoValue) (color : PPColor)
    (inline : Bool) :
    formatValue (.slice elem items) color inline = formatList elem items color "Slice" inline := by
  simp [formatValue, formatList]

theorem formatValue_map (key elem : GoType) (entries : List (String × Option GoValue))
    (color : PPColor) (inline : Bool) :
    formatValue (.map key elem entries) color inline = formatMap key elem entries color inline := by
  simp [formatValue, formatMap]

/-! ## The loops in closed form

The children of a list or a map are rendered by `formatValue` in Inline mode,
one after the other (for a map through `formatIndexed`, which first takes
`MapIndex(key).Interface()`), and the first panic ends the whole call: that is
`List.mapM` in `Except Panic`, whose result is the list of the rendered
children. -/

theorem mapM_length (items : List GoValue) (color : PPColor) :
    (items.mapM fun v => formatValue v color true).map List.length =
      (items.mapM fun v => formatValue v color true).map fun _ => items.length := by
  induction items with
  | nil => rfl
  | cons v rest ih =>
    rw [List.mapM_cons]
    cases hv : formatValue v color true with
    | error e => simp [bind, Except.bind, Except.map]
    | ok item =>
      cases hm : (rest.mapM fun v => formatValue v color true) with
      | error e => simp [bind, Except.bind, Except.map]
      | ok rendered =>
        rw [hm] at ih
        simp only [Except.map, Except.ok.injEq] at ih
        simp [bind, Except.bind, Except.map, pure, Except.pure, ih]

theorem mapM_entries_length (entries : List (String × Option GoValue)) (color : PPColor) :
    (entries.mapM fun e => formatIndexed e.2 color).map List.length =
      (entries.mapM fun e => formatIndexed e.2 color).map fun _ => entries.length := by
  induction entries with
  | nil => rfl
  | cons e rest ih =>
    rw [List.mapM_cons]
    cases hv : formatIndexed e.2 color with
    | error e => simp [bind, Except.bind, Except.map]
    | ok item =>
      cases hm : (rest.mapM fun e => formatIndexed e.2 color) with
      | error e => simp [bind, Except.bind, Except.map]
      | ok rendered =>
        rw [hm] at ih
        simp only [Except.map, Except.ok.injEq] at ih
        simp [bind, Except.bind, Except.map, pure, Except.pure, ih]

theorem formatListLoop_block (color : PPColor) (colWidth len : Nat) (items : List GoValue) :
    ∀ (i : Nat) (output : String),
      formatListLoop color false colWidth len items i output =
        (items.mapM fun v => formatValue v color true).map fun rendered =>
          output ++ String.join ((rendered.enumFrom i).map (listLine color colWidth)) := by
  induction items with
  | nil =>
    intro i output
    rw [formatListLoop, List.mapM_nil]
    simp [Except.map, pure, Except.pure, join_nil]
  | cons v rest ih =>
    intro i output
    rw [formatListLoop, List.mapM_cons]
    cases hv : formatValue v color true with
    | error e => simp [bind, Except.bind, Except.map]
    | ok item =>
      simp only [Bool.false_eq_true, if_false]
      rw [ih]
      cases hm : (rest.mapM fun v => formatValue v color true) with
      | error e => simp [bind, Except.bind, Except.map]
      | ok rendered =>
        simp [bind, Except.bind, Except.map, pure, Except.pure, List.enumFrom, join_cons,
          listLine, String.append_assoc]

theorem formatListLoop_inline (color : PPColor) (colWidth len : Nat) (items : List GoValue) :
    ∀ (i : Nat) (output : String), i + items.length = len →
      formatListLoop color true colWidth len items i output =
        (items.mapM fun v => formatValue v color true).map fun rendered =>
          output ++ ", ".intercalate ((rendered.enumFrom i).map (listFragment color)) := by
  induction items with
  | nil =>
    intro i output _
    rw [formatListLoop, List.mapM_nil]
    simp [Except.map, pure, Except.pure, String.intercalate]
  | cons v rest ih =>
    intro i output hlen
    rw [formatListLoop, List.mapM_cons]
    cases hv : formatValue v color true with
    | error e => simp [bind, Except.bind, Except.map]
    | ok item =>
      simp only [if_true]
      rw [ih _ _ (by simp only [List.length_cons] at hlen; omega)]
      cases rest with
      | nil =>
        have : ¬ ((i : Int) < (len : Int) - 1) := by
          simp only [List.length_cons, List.length_nil] at hlen; omega
        rw [List.mapM_nil]
        simp [this, bind, Except.bind, Except.map, pure, Except.pure, List.enumFrom,
          String.intercalate, String.intercalate.go, listFragment]
      | cons v2 rest2 =>
        have : (i : Int) < (len : Int) - 1 := by
          simp only [List.length_cons] at hlen; omega
        simp only [this, if_true, List.mapM_cons]
        cases hv2 : formatValue v2 color true with
        | error e => simp [bind, Except.bind, Except.map]
        | ok item2 =>
          cases hm : (rest2.mapM fun v => formatValue v color true) with
          | error e => simp [bind, Except.bind, Except.map]
          | ok rendered =>
            simp [bind, Except.bind, Except.map, pure, Except.pure, List.enumFrom,
              intercalate_cons_cons, listFragment, String.append_assoc]

theorem formatMapLoop_block (color : PPColor) (len : Nat) (entries : List (String × Option GoValue)) :
    ∀ (i : Nat) (output : String),
      formatMapLoop color false len entries i output =
        (entries.mapM fun e => formatIndexed e.2 color).map fun rendered =>
          output ++ String.join ((entries.zip rendered).map (mapLine color)) := by
  induction entries with
  | nil =>
    intro i output
    rw [formatMapLoop, List.mapM_nil]
    simp [Except.map, pure, Except.pure, join_nil]
  | cons e rest ih =>
    intro i output
    obtain ⟨key, found⟩ := e
    rw [formatMapLoop, List.mapM_cons]
    cases hv : formatIndexed found color with
    | error e => simp [hv, bind, Except.bind, Except.map]
    | ok item =>
      simp only [Bool.false_eq_true, if_false]
      rw [ih]
      cases hm : (rest.mapM fun e => formatIndexed e.2 color) with
      | error e => simp [hv, bind, Except.bind, Except.map]
      | ok rendered =>
        simp [hv, bind, Except.bind, Except.map, pure, Except.pure, join_cons, mapLine,
          String.append_assoc]

theorem formatMapLoop_inline (color : PPColor) (len : Nat) (entries : List (String × Option GoValue)) :
    ∀ (i : Nat) (output : String), i + entries.length = len →
      formatMapLoop color true len entries i output =
        (entries.mapM fun e => formatIndexed e.2 color).map fun rendered =>
          output ++ ", ".intercalate ((entries.zip rendered).map (mapFragment color)) := by
  induction entries with
  | nil =>
    intro i output _
    rw [formatMapLoop, List.mapM_nil]
    simp [Except.map, pure, Except.pure, String.intercalate]
  | cons e rest ih =>
    intro i output hlen
    obtain ⟨key, found⟩ := e
    rw [formatMapLoop, List.mapM_cons]
    cases hv : formatIndexed found color with
    | error e => simp [hv, bind, Except.bind, Except.map]
    | ok item =>
      simp only [if_true]
      rw [ih _ _ (by simp only [List.length_cons] at hlen; omega)]
      cases rest with
      | nil =>
        have : ¬ ((i : Int) < (len : Int) - 1) := by
          simp only [List.length_cons, List.length_nil] at hlen; omega
        rw [List.mapM_nil]
        simp [hv, this, bind, Except.bind, Except.map, pure, Except.pure, String.intercalate,
          String.intercalate.go, mapFragment]
      | cons e2 rest2 =>
        have : (i : Int) < (len : Int) - 1 := by
          simp only [List.length_cons] at hlen; omega
        simp only [this, if_true, List.mapM_cons]
        cases hv2 : formatIndexed e2.2 color with
        | error e => simp [hv, bind, Except.bind, Except.map]
        | ok item2 =>
          cases hm : (rest2.mapM fun e => formatIndexed e.2 color) with
          | error e => simp [hv, bind, Except.bind, Except.map]
          | ok rendered =>
            simp [hv, bind, Except.bind, Except.map, pure, Except.pure,
              intercalate_cons_cons, mapFragment, String.append_assoc]

/-! ## The empty map (C1) -/

/-- C1 (the code faults): on a map without entries `formatMap` panics at
`keys[0]` with an index out of range, for every key type, element type, colour
and mode, and so does `formatValue`; no header is produced. -/
theorem formatMap_empty_panics (keyT elemT : GoType) (color : PPColor) (inline : Bool) :
    formatMap keyT elemT [] color inline = .error .indexOutOfRange ∧
    formatValue (.map keyT elemT []) color inline = .error .indexOutOfRange := by
  constructor
  · simp [formatMap]
  · simp [formatValue]

/-! ## Lists in Block mode (C2, C3) -/

/-- C2: for every list (array or slice) of `N` items and every colour the
Block rendering of `formatList` is the header
`<label> with <color>N<Reset> elements of type <color><elementType><Reset>:\n\n`,
then one line per item in index order `0..N-1`, line `i` being
`<color>[<i, padded on the left with spaces>]<Reset> ` followed by
`formatValue(child_i, color, Inline)` and a line break, then one line break.
The children are rendered Inline, in order, and a panic in one of them is the
panic of the whole call; there are `N` rendered children, so `N` item lines.
With the colours stripped, the slice `[1, 2, 3]` of ints gives the text of the
specification. -/
theorem formatList_block (elType : GoType) (items : List GoValue) (color : PPColor)
    (listType : String) :
    formatList elType items color listType false =
      ((items.mapM fun v => formatValue v color true).map fun rendered =>
        listType ++ " with " ++ color ++ fmtD items.length ++ colorReset ++
          " elements of type " ++ color ++ elType.string ++ colorReset ++ ":\n\n" ++
          String.join (rendered.enum.map fun p =>
            color ++ "[" ++ fmtWidth (fmtD items.length).length (fmtD p.1) ++ "]" ++
              colorReset ++ " " ++ p.2 ++ "\n") ++
          "\n") ∧
    (items.mapM fun v => formatValue v color true).map List.length =
      ((items.mapM fun v => formatValue v color true).map fun _ => items.length) ∧
    (formatList ⟨"int", "int"⟩ [goInt 1, goInt 2, goInt 3] colorRed "Slice" false).map
        stripColors =
      .ok "Slice with 3 elements of type int:\n\n[0] 1\n[1] 2\n[2] 3\n\n" := by
  refine ⟨?_, mapM_length items color, by rfl⟩
  simp only [formatList]
  rw [formatListLoop_block color _ _ items]
  cases (items.mapM fun v => formatValue v color true) with
  | error e => rfl
  | ok rendered =>
    simp [Except.map, formatListHead, formatListTail, List.enum, listLine]
    rfl

/-- C3 (the code differs): on a slice of ten ints the indices 0..9 need one
character, which is the width the specification gives, but `formatList` takes
the width from the decimal text of the length, `10`, and prints every index in
a field of two characters. -/
theorem formatList_ten_items_width :
    specIndexWidth 10 = 1 ∧ (fmtD 10).length = 2 ∧
    (formatList ⟨"int", "int"⟩
        [goInt 0, goInt 1, goInt 2, goInt 3, goInt 4, goInt 5, goInt 6, goInt 7, goInt 8,
          goInt 9] colorRed "Slice" false).map stripColors =
      .ok ("Slice with 10 elements of type int:\n\n" ++
        "[ 0] 0\n[ 1] 1\n[ 2] 2\n[ 3] 3\n[ 4] 4\n[ 5] 5\n[ 6] 6\n[ 7] 7\n[ 8] 8\n[ 9] 9\n\n") := by
  refine ⟨by decide, by decide, ?_⟩
  set_option maxRecDepth 100000 in rfl

/-! ## Lists and maps in Inline mode (C4) -/

/-- C4: for every list and for every map with at least one entry the Inline
rendering is `{`, the fragments of the items joined by `, ` (no separator after
the last), and `}`.  A list fragment is `<color>[i]<Reset> ` followed by
`formatValue(child_i, color, Inline)`, the index not padded; a map fragment is
`<color>[<key Debug-Repr>]<Reset> ` followed by
`formatValue(entryValue, color, Inline)`, the call of line 125 on
`MapIndex(key).Interface()`.  The children are rendered in order, and a panic
in one of these calls (of the child, or of `Interface()` for a key that
`MapIndex` does not find, as in the map with the one key NaN) is the panic of
the whole call.  For a list without items the rendering is `{}`. -/
theorem inline_rendering (color : PPColor) :
    (∀ (elType : GoType) (items : List GoValue) (listType : String),
      formatList elType items color listType true =
        (items.mapM fun v => formatValue v color true).map fun rendered =>
          "\x7b" ++ ", ".intercalate (rendered.enum.map fun p =>
            color ++ "[" ++ fmtD p.1 ++ "]" ++ colorReset ++ " " ++ p.2) ++ "\x7d") ∧
    (∀ (keyT elemT : GoType) (entries : List (String × Option GoValue)), entries ≠ [] →
      formatMap keyT elemT entries color true =
        (entries.mapM fun e => formatIndexed e.2 color).map fun rendered =>
          "\x7b" ++ ", ".intercalate ((entries.zip rendered).map fun p =>
            color ++ "[" ++ p.1.1 ++ "]" ++ colorReset ++ " " ++ p.2) ++ "\x7d") ∧
    (∀ (v : GoValue), formatIndexed (some v) color = formatValue v color true) ∧
    formatIndexed none color = .error .zeroValueInterface ∧
    formatMap ⟨"float64", "float64"⟩ ⟨"int", "int"⟩ [("NaN", none)] color true =
      .error .zeroValueInterface ∧
    (∀ (elType : GoType) (listType : String),
      formatList elType [] color listType true = .ok "\x7b\x7d") := by
  refine ⟨?_, ?_, fun v => by simp [formatIndexed], by simp [formatIndexed], ?_, ?_⟩
  · intro elType items listType
    simp only [formatList]
    rw [formatListLoop_inline color _ _ items 0 _ (by simp)]
    cases (items.mapM fun v => formatValue v color true) with
    | error e => rfl
    | ok rendered =>
      simp [Except.map, formatListHead, formatListTail, List.enum]
      rfl
  · intro keyT elemT entries hne
    have hpos : 0 < entries.length := List.length_pos.mpr hne
    simp only [formatMap, hpos, if_true]
    rw [formatMapLoop_inline color _ entries 0 _ (by simp)]
    cases (entries.mapM fun e => formatIndexed e.2 color) with
    | error e => rfl
    | ok rendered =>
      simp [Except.map, formatMapHead, formatListTail]
      rfl
  · simp [formatMap, formatMapLoop, formatIndexed, Except.map]
  · intro elType listType
    rfl

/-- Witness of C4: the map `{"a": 1, "b": []int{2}}`, whose second value is
itself rendered Inline, and the slice `[1, 2]` of ints. -/
theorem inline_rendering_witness :
    [("\"a\"", some (goInt 1)), ("\"b\"", some (GoValue.slice ⟨"int", "int"⟩ [goInt 2]))] ≠ [] ∧
    (formatMap ⟨"string", "string"⟩ ⟨"", "interface \x7b\x7d"⟩
        [("\"a\"", some (goInt 1)), ("\"b\"", some (GoValue.slice ⟨"int", "int"⟩ [goInt 2]))]
        colorRed true).map stripColors =
      .ok "\x7b[\"a\"] 1, [\"b\"] \x7b[0] 2\x7d\x7d" ∧
    (formatList ⟨"int", "int"⟩ [goInt 1, goInt 2] colorRed "Slice" true).map stripColors =
      .ok "\x7b[0] 1, [1] 2\x7d" := by
  refine ⟨by simp, ?_, ?_⟩
  · rw [(inline_rendering colorRed).2.1 ⟨"string", "string"⟩ ⟨"", "interface \x7b\x7d"⟩ _
      (by simp)]
    rfl
  · rw [(inline_rendering colorRed).1 ⟨"int", "int"⟩ _ "Slice"]
    rfl

/-! ## Scalars (C5) -/

/-- C5 (the code faults on nil): for a value of a kind other than array,
slice, map and struct that has a dynamic type `type` and the Debug-Repr
`repr`, and every colour, the Inline rendering is the Debug-Repr alone, and the
Block rendering is the Debug-Repr followed by ` (`, the colour, the type name,
Reset, `)` and two line breaks.  The nil interface is such a value too (its
kind is `Invalid`, its shape `Scalar`): its Inline rendering is the text
`<nil>` that `%#v` gives for it, but in Block mode `formatValue` panics on it,
in `reflect.Value.Type` called on the zero `Value`. -/
theorem formatValue_scalar (kind : ScalarKind) (type : GoType) (repr : String)
    (color : PPColor) :
    formatValue (.scalar kind type repr) color true = .ok repr ∧
    formatValue (.scalar kind type repr) color false =
      .ok (repr ++ (" (" ++ color ++ type.string ++ colorReset ++ ")") ++ "\n\n") ∧
    formatValue .nil color true = .ok "<nil>" ∧
    GoValue.nil.kind = .Invalid ∧ classify .nil = .Scalar ∧
    formatValue .nil color false = .error .zeroValueType := by
  refine ⟨by simp [formatValue], ?_, by simp [formatValue], rfl, rfl, by simp [formatValue]⟩
  simp [formatValue, String.append_assoc]

/-! ## Maps in Block mode (C6) -/

/-- C6: for every map with at least one entry and every colour the Block
rendering of `formatMap` is the header `Map: <color>count<Reset> elements, key
type <color>K<Reset>, value type <color>V<Reset>:\n\n` (`K` the `String()` of
the key type, `V` the `Name()` of the element type), then one line per entry,
in the order of the keys, each being `<color>[<key Debug-Repr>]<Reset> `
followed by `formatValue(entryValue, color, Inline)`, the call of line 125 on
`MapIndex(key).Interface()`, and a line break, then one line break.  The values
are rendered in order, and a panic in one of these calls (of the child, or of
`Interface()` for a key that `MapIndex` does not find, as in the map with the
one key NaN) is the panic of the whole call; there are `count` rendered
values, one for each key, so `count` entry lines. -/
theorem formatMap_block (keyT elemT : GoType) (entries : List (String × Option GoValue))
    (color : PPColor) (hne : entries ≠ []) :
    formatMap keyT elemT entries color false =
      ((entries.mapM fun e => formatIndexed e.2 color).map fun rendered =>
        "Map: " ++ color ++ fmtD entries.length ++ colorReset ++ " elements, key type " ++
          color ++ keyT.string ++ colorReset ++ ", value type " ++ color ++ elemT.name ++
          colorReset ++ ":\n\n" ++
          String.join ((entries.zip rendered).map fun p =>
            color ++ "[" ++ p.1.1 ++ "]" ++ colorReset ++ " " ++ p.2 ++ "\n") ++
          "\n") ∧
    (entries.mapM fun e => formatIndexed e.2 color).map List.length =
      ((entries.mapM fun e => formatIndexed e.2 color).map fun _ => entries.length) ∧
    (∀ (v : GoValue), formatIndexed (some v) color = formatValue v color true) ∧
    formatIndexed none color = .error .zeroValueInterface ∧
    formatMap ⟨"float64", "float64"⟩ ⟨"int", "int"⟩ [("NaN", none)] color false =
      .error .zeroValueInterface := by
  refine ⟨?_, mapM_entries_length entries color, fun v => by simp [formatIndexed],
    by simp [formatIndexed], by simp [formatMap, formatMapLoop, formatIndexed, Except.map]⟩
  have hpos : 0 < entries.length := List.length_pos.mpr hne
  simp only [formatMap, hpos, if_true]
  rw [formatMapLoop_block color _ entries]
  cases (entries.mapM fun e => formatIndexed e.2 color) with
  | error e => rfl
  | ok rendered =>
    simp [Except.map, formatMapHead, formatListTail]
    rfl

/-- Witness of C6: the map `{"a": 1, "b": 2}` from strings to ints. -/
theorem formatMap_block_witness :
    [("\"a\"", some (goInt 1)), ("\"b\"", some (goInt 2))] ≠ [] ∧
    (formatMap ⟨"string", "string"⟩ ⟨"int", "int"⟩
        [("\"a\"", some (goInt 1)), ("\"b\"", some (goInt 2))] colorBlue false).map
        stripColors =
      .ok "Map: 2 elements, key type string, value type int:\n\n[\"a\"] 1\n[\"b\"] 2\n\n" := by
  refine ⟨by simp, ?_⟩
  rw [(formatMap_block ⟨"string", "string"⟩ ⟨"int", "int"⟩ _ colorBlue (by simp)).1]
  rfl

/-! ## Structs (C7, C8, C9) -/

theorem formatStructLoop_block (color : PPColor) (width numFields : Nat)
    (fields : List (String × String × GoValue)) :
    ∀ (i : Nat) (output : String),
      formatStructLoop color false width numFields fields i output =
        output ++ String.join (fields.map fun f =>
          "  " ++ color ++ fmtWidth width f.1 ++ colorReset ++ ": " ++ f.2.1 ++ "\n") := by
  induction fields with
  | nil =>
    intro i output
    simp [formatStructLoop, join_nil]
  | cons f fields ih =>
    intro i output
    obtain ⟨fieldName, fieldRepr, fieldValue⟩ := f
    rw [formatStructLoop]
    simp only [Bool.false_eq_true, if_false]
    rw [ih]
    simp only [List.map, join_cons, String.append_assoc]

theorem formatStructLoop_inline (color : PPColor) (width numFields : Nat)
    (fields : List (String × String × GoValue)) :
    ∀ (i : Nat) (output : String), i + fields.length = numFields →
      formatStructLoop color true width numFields fields i output =
        output ++ ", ".intercalate (fields.map fun f =>
          color ++ f.1 ++ colorReset ++ ": " ++ f.2.1) := by
  induction fields with
  | nil =>
    intro i output _
    simp [formatStructLoop, String.intercalate]
  | cons f fields ih =>
    intro i output hlen
    obtain ⟨fieldName, fieldRepr, fieldValue⟩ := f
    rw [formatStructLoop]
    simp only [if_true]
    rw [ih _ _ (by simp only [List.length_cons] at hlen; omega)]
    cases fields with
    | nil =>
      have : ¬ ((i : Int) < (numFields : Int) - 1) := by
        simp only [List.length_cons, List.length_nil] at hlen; omega
      simp [this, String.intercalate, String.intercalate.go]
    | cons g fields =>
      have : (i : Int) < (numFields : Int) - 1 := by
        simp only [List.length_cons] at hlen; omega
      simp only [this, if_true, List.map, intercalate_cons_cons, String.append_assoc]

theorem formatStruct_block_eq (fields : List (String × String × GoValue)) (color : PPColor) :
    formatStruct fields color false =
      "Struct with " ++ color ++ fmtD fields.length ++ colorReset ++ " fields:\n\n" ++ "\x7b\n" ++
        String.join (fields.map fun f =>
          "  " ++ color ++ fmtWidth (maxNameLength fields) f.1 ++ colorReset ++ ": " ++
            f.2.1 ++ "\n") ++
        "\x7d\n\n" := by
  simp only [formatStruct, formatStructLoop_block]
  simp [String.append_assoc]

theorem maxNameLength_foldl (fields : List (String × String × GoValue)) (m : Nat) :
    fields.foldl (fun maxNameLength f =>
      if f.1.utf8ByteSize > maxNameLength then f.1.utf8ByteSize else maxNameLength) m =
    max m ((fields.map fun f => f.1.utf8ByteSize).foldr max 0) := by
  induction fields generalizing m with
  | nil => simp
  | cons f fields ih =>
    simp only [List.foldl_cons, List.map_cons, List.foldr_cons]
    rw [ih]
    split <;> omega

theorem maxNameLength_eq (fields : List (String × String × GoValue)) :
    maxNameLength fields = (fields.map fun f => f.1.utf8ByteSize).foldr max 0 := by
  rw [maxNameLength, maxNameLength_foldl]
  simp

/-- C7 (as stated, refuted): the struct with the fields `A = 1` and `B = "x"`
is not rendered in Block mode with a header that begins `Record with`. -/
theorem formatStruct_block_header_not_record :
    formatStruct [("A", "1", goInt 1), ("B", "\"x\"", goString "\"x\"")] colorRed false ≠
      "Record with \x1b[31m2\x1b[0m fields:\n\n\x7b\n  \x1b[31mA\x1b[0m: 1\n  \x1b[31mB\x1b[0m: \"x\"\n\x7d\n\n" := by
  decide

/-- C7 (amended): for every struct and every colour the Block rendering of
`formatStruct` is the header `Struct with <color>fieldCount<Reset> fields:\n\n`,
then `{\n`, then one line per field in declaration order, each being two
spaces, the colour, the field name in a field of `maxNameLength` characters,
Reset, `: `, the Debug-Repr of the field and a line break, then `}\n\n`.  The
value of a field does not occur in the result: only its Debug-Repr does,
whatever the kind of the field. -/
theorem formatStruct_block (fields : List (String × String × GoValue)) (color : PPColor) :
    formatStruct fields color false =
      "Struct with " ++ color ++ fmtD fields.length ++ colorReset ++ " fields:\n\n" ++ "\x7b\n" ++
        String.join (fields.map fun f =>
          "  " ++ color ++ fmtWidth (maxNameLength fields) f.1 ++ colorReset ++ ": " ++
            f.2.1 ++ "\n") ++
        "\x7d\n\n" ∧
    (fields.map fun f =>
          "  " ++ color ++ fmtWidth (maxNameLength fields) f.1 ++ colorReset ++ ": " ++
            f.2.1 ++ "\n").length = fields.length ∧
    formatValue (.struct fields) color false = .ok (formatStruct fields color false) := by
  refine ⟨formatStruct_block_eq fields color, by simp, by simp [formatValue]⟩

/-- C8 (as stated, refuted): in the struct with the fields `A = 1` and
`Bcd = 2` the name `A` is printed after two spaces of padding, not before them. -/
theorem formatStruct_name_not_right_padded :
    formatStruct [("A", "1", goInt 1), ("Bcd", "2", goInt 2)] colorRed false =
      "Struct with \x1b[31m2\x1b[0m fields:\n\n\x7b\n  \x1b[31m  A\x1b[0m: 1\n  \x1b[31mBcd\x1b[0m: 2\n\x7d\n\n" ∧
    formatStruct [("A", "1", goInt 1), ("Bcd", "2", goInt 2)] colorRed false ≠
      "Struct with \x1b[31m2\x1b[0m fields:\n\n\x7b\n  \x1b[31mA  \x1b[0m: 1\n  \x1b[31mBcd\x1b[0m: 2\n\x7d\n\n" := by
  decide

/-- C8 (amended): in the Block rendering of `formatStruct` each field name is
right-justified in a field of `maxNameLength` characters: the padding spaces
come first and the name follows them, `maxNameLength` less the number of
characters of the name being the number of spaces (none when the name is at
least that long); `maxNameLength` is the greatest length in bytes (`len`) of a
field name, 0 for a struct without fields.  So the name `A` in a struct whose
longest field name has 3 bytes, such as `Bcd`, is printed as two spaces
followed by `A`, then Reset and the colon; beside the field name `Äöü`, of 3
characters and 6 bytes, it is printed after five spaces, and `Äöü` itself after
three. -/
theorem formatStruct_name_left_padded (fields : List (String × String × GoValue))
    (color : PPColor) :
    formatStruct fields color false =
      "Struct with " ++ color ++ fmtD fields.length ++ colorReset ++ " fields:\n\n" ++ "\x7b\n" ++
        String.join (fields.map fun f =>
          "  " ++ color ++
            (String.mk (List.replicate (maxNameLength fields - f.1.length) ' ') ++ f.1) ++
            colorReset ++ ": " ++ f.2.1 ++ "\n") ++
        "\x7d\n\n" ∧
    maxNameLength fields = (fields.map fun f => f.1.utf8ByteSize).foldr max 0 ∧
    maxNameLength [("A", "1", goInt 1), ("Bcd", "2", goInt 2)] = 3 ∧
    formatStruct [("A", "1", goInt 1), ("Bcd", "2", goInt 2)] color false =
      "Struct with " ++ color ++ "2" ++ colorReset ++ " fields:\n\n" ++ "\x7b\n" ++
        ("  " ++ color ++ "  A" ++ colorReset ++ ": 1\n") ++
        ("  " ++ color ++ "Bcd" ++ colorReset ++ ": 2\n") ++ "\x7d\n\n" ∧
    ("Äöü".length = 3 ∧ "Äöü".utf8ByteSize = 6) ∧
    maxNameLength [("A", "1", goInt 1), ("Äöü", "2", goInt 2)] = 6 ∧
    formatStruct [("A", "1", goInt 1), ("Äöü", "2", goInt 2)] color false =
      "Struct with " ++ color ++ "2" ++ colorReset ++ " fields:\n\n" ++ "\x7b\n" ++
        ("  " ++ color ++ "     A" ++ colorReset ++ ": 1\n") ++
        ("  " ++ color ++ "   Äöü" ++ colorReset ++ ": 2\n") ++ "\x7d\n\n" := by
  have h : ∀ fs : List (String × String × GoValue), formatStruct fs color false =
      "Struct with " ++ color ++ fmtD fs.length ++ colorReset ++ " fields:\n\n" ++ "\x7b\n" ++
        String.join (fs.map fun f =>
          "  " ++ color ++
            (String.mk (List.replicate (maxNameLength fs - f.1.length) ' ') ++ f.1) ++
            colorReset ++ ": " ++ f.2.1 ++ "\n") ++
        "\x7d\n\n" := by
    intro fs
    rw [formatStruct_block_eq]
    rfl
  have hA : maxNameLength [("A", "1", goInt 1), ("Bcd", "2", goInt 2)] = 3 := by decide
  have hU : maxNameLength [("A", "1", goInt 1), ("Äöü", "2", goInt 2)] = 6 := by decide
  have h2 : fmtD 2 = "2" := by decide
  refine ⟨h fields, maxNameLength_eq fields, hA, ?_, by decide, hU, ?_⟩
  · rw [h, hA]
    simp only [List.map, List.length_cons, List.length_nil, join_cons, join_nil, h2,
      String.append_assoc]
    rfl
  · rw [h, hU]
    simp only [List.map, List.length_cons, List.length_nil, join_cons, join_nil, h2,
      String.append_assoc]
    rfl

/-- C9: for every struct and every colour the Inline rendering of
`formatStruct` is `{`, then for each field in declaration order the fragment
`<color><fieldName><Reset>: <field Debug-Repr>`, the fragments joined by `, `
with no separator after the last, then `}`.  The value of a field does not
occur in the result, only its Debug-Repr: a field that holds the slice
`[]int{1, 2}` is shown by that text, not by the rendering `formatValue` gives
the slice.  With the colours stripped, the struct with the fields `A = 1` and
`B = "x"` renders as `{A: 1, B: "x"}`. -/
theorem formatStruct_inline (fields : List (String × String × GoValue)) (color : PPColor) :
    formatStruct fields color true =
      "\x7b" ++ ", ".intercalate (fields.map fun f =>
        color ++ f.1 ++ colorReset ++ ": " ++ f.2.1) ++ "\x7d" ∧
    formatValue (.struct fields) color true = .ok (formatStruct fields color true) ∧
    stripColors (formatStruct [("A", "1", goInt 1), ("B", "\"x\"", goString "\"x\"")]
      colorRed true) = "\x7bA: 1, B: \"x\"\x7d" ∧
    formatStruct [("L", "[]int\x7b1, 2\x7d", .slice ⟨"int", "int"⟩ [goInt 1, goInt 2])]
      colorRed true = "\x7b\x1b[31mL\x1b[0m: []int\x7b1, 2\x7d\x7d" := by
  have h : formatStruct fields color true =
      "\x7b" ++ ", ".intercalate (fields.map fun f =>
        color ++ f.1 ++ colorReset ++ ": " ++ f.2.1) ++ "\x7d" := by
    simp only [formatStruct]
    rw [formatStructLoop_inline _ _ _ _ 0 _ (by simp)]
    simp
  exact ⟨h, by simp [formatValue], by decide, by decide⟩

/-! ## Balanced colour markers (C10) -/

theorem noEsc_iff (s : String) : noEsc s = true ↔ '\x1b' ∉ s.data := by
  simp [noEsc]

theorem noEsc_append (s t : String) : noEsc (s ++ t) = (noEsc s && noEsc t) := by
  simp only [noEsc, String.data_append]
  cases hs : s.data.contains '\x1b' <;> cases ht : t.data.contains '\x1b' <;>
    simp_all [List.contains_iff_exists_mem_beq]

theorem escapeSeqsAux_text (t rest : List Char) (h : '\x1b' ∉ t) :
    escapeSeqsAux none (t ++ rest) = escapeSeqsAux none rest := by
  induction t with
  | nil => rfl
  | cons ch t ih =>
    have hch : ch ≠ '\x1b' := fun e => h (by simp [e])
    have ht : '\x1b' ∉ t := fun m => h (by simp [m])
    simp only [List.cons_append, escapeSeqsAux, hch, if_false]
    exact ih ht

theorem escapeSeqsAux_body (acc body rest : List Char) (h : 'm' ∉ body) :
    escapeSeqsAux (some acc) (body ++ 'm' :: rest) =
      String.mk (acc ++ body ++ ['m']) :: escapeSeqsAux none rest := by
  induction body generalizing acc with
  | nil => simp [escapeSeqsAux]
  | cons ch body ih =>
    have hch : ch ≠ 'm' := fun e => h (by simp [e])
    have hb : 'm' ∉ body := fun m => h (by simp [m])
    rw [List.cons_append, escapeSeqsAux, if_neg hch, ih _ hb]
    simp

theorem escapeSeqsAux_marker (color : PPColor) (hc : IsColorMarker color) (rest : List Char) :
    escapeSeqsAux none (color.data ++ rest) = color :: escapeSeqsAux none rest := by
  obtain ⟨body, hdata, hm⟩ := hc
  rw [hdata, List.cons_append, List.append_assoc, List.singleton_append, escapeSeqsAux,
    if_pos rfl, escapeSeqsAux_body _ _ _ hm]
  congr 1
  apply String.ext
  simp [hdata]

theorem isColorMarker_reset : IsColorMarker colorReset :=
  ⟨['[', '0'], rfl, by decide⟩

theorem balanced_text (color : PPColor) (s : String) (h : noEsc s = true) :
    Balanced color s :=
  ⟨0, fun rest => by simpa using escapeSeqsAux_text s.data rest ((noEsc_iff s).mp h)⟩

theorem balanced_append (color : PPColor) (s t : String) (hs : Balanced color s)
    (ht : Balanced color t) : Balanced color (s ++ t) := by
  obtain ⟨k, hk⟩ := hs
  obtain ⟨j, hj⟩ := ht
  refine ⟨k + j, fun rest => ?_⟩
  rw [String.data_append, List.append_assoc, hk, hj, List.replicate_add, List.flatten_append,
    List.append_assoc]

theorem balanced_colored (color : PPColor) (hc : IsColorMarker color) (t : String)
    (h : noEsc t = true) : Balanced color (color ++ t ++ colorReset) := by
  refine ⟨1, fun rest => ?_⟩
  simp only [String.data_append, List.append_assoc]
  rw [escapeSeqsAux_marker color hc, escapeSeqsAux_text _ _ ((noEsc_iff t).mp h),
    escapeSeqsAux_marker colorReset isColorMarker_reset]
  simp

theorem digitChar_ne_esc : ∀ m < 10, Nat.digitChar m ≠ '\x1b' := by
  decide

theorem toDigitsCore_noEsc (fuel n : Nat) (ds : List Char) (h : '\x1b' ∉ ds) :
    '\x1b' ∉ Nat.toDigitsCore 10 fuel n ds := by
  induction fuel generalizing n ds with
  | zero => simpa [Nat.toDigitsCore] using h
  | succ fuel ih =>
    have hd : '\x1b' ∉ Nat.digitChar (n % 10) :: ds := by
      simp only [List.mem_cons, not_or]
      exact ⟨fun e => digitChar_ne_esc _ (Nat.mod_lt n (by decide)) e.symm, h⟩
    simp only [Nat.toDigitsCore]
    split
    · exact hd
    · exact ih _ _ hd

theorem noEsc_fmtD (n : Nat) : noEsc (fmtD n) = true := by
  rw [noEsc_iff]
  show '\x1b' ∉ (Nat.toDigits 10 n).asString.data
  exact toDigitsCore_noEsc _ _ _ (by simp)

theorem noEsc_fmtWidth (width : Nat) (s : String) (h : noEsc s = true) :
    noEsc (fmtWidth width s) = true := by
  rw [fmtWidth, noEsc_append, h, Bool.and_true, noEsc_iff]
  simp only [List.mem_replicate, not_and]
  intro _
  decide

theorem balanced_fragment (color : PPColor) (hc : IsColorMarker color) (t item : String)
    (ht : noEsc t = true) (hitem : Balanced color item) :
    Balanced color (color ++ "[" ++ t ++ "]" ++ colorReset ++ " " ++ item) := by
  have e : color ++ "[" ++ t ++ "]" ++ colorReset ++ " " ++ item =
      color ++ ("[" ++ t ++ "]") ++ colorReset ++ " " ++ item := by
    simp only [String.append_assoc]
  rw [e]
  refine balanced_append _ _ _ (balanced_append _ _ _ (balanced_colored color hc _ ?_)
    (balanced_text _ _ (by decide))) hitem
  simp [noEsc_append, ht]
  decide

theorem balanced_line (color : PPColor) (hc : IsColorMarker color) (t item : String)
    (ht : noEsc t = true) (hitem : Balanced color item) :
    Balanced color (color ++ "[" ++ t ++ "]" ++ colorReset ++ " " ++ item ++ "\n") :=
  balanced_append _ _ _ (balanced_fragment color hc t item ht hitem)
    (balanced_text _ _ (by decide))

theorem balanced_listLoop (color : PPColor) (hc : IsColorMarker color) (inline : Bool)
    (colWidth len : Nat) (items : List GoValue)
    (ih : ∀ v ∈ items, ∀ s, formatValue v color true = .ok s → Balanced color s) :
    ∀ (i : Nat) (output res : String), Balanced color output →
      formatListLoop color inline colWidth len items i output = .ok res →
      Balanced color res := by
  induction items with
  | nil =>
    intro i output res hout h
    simp only [formatListLoop, Except.ok.injEq] at h
    exact h ▸ hout
  | cons v rest ihrest =>
    intro i output res hout h
    rw [formatListLoop] at h
    cases hv : formatValue v color true with
    | error e => simp [hv] at h
    | ok item =>
      have hitem : Balanced color item := ih v (by simp) item hv
      have ihr := ihrest (fun w hw => ih w (by simp [hw]))
      simp only [hv] at h
      cases inline with
      | false =>
        simp only [Bool.false_eq_true, if_false] at h
        exact ihr _ _ _ (balanced_append _ _ _ hout
          (balanced_line color hc _ item (noEsc_fmtWidth _ _ (noEsc_fmtD i)) hitem)) h
      | true =>
        simp only [if_true] at h
        have hfrag := balanced_append _ _ _ hout
          (balanced_fragment color hc _ item (noEsc_fmtD i) hitem)
        split at h
        · exact ihr _ _ _ (balanced_append _ _ _ hfrag (balanced_text _ _ (by decide))) h
        · exact ihr _ _ _ hfrag h

theorem balanced_mapLoop (color : PPColor) (hc : IsColorMarker color) (inline : Bool)
    (len : Nat) (entries : List (String × Option GoValue))
    (hkeys : ∀ e ∈ entries, noEsc e.1 = true)
    (ih : ∀ e ∈ entries, ∀ s, formatIndexed e.2 color = .ok s → Balanced color s) :
    ∀ (i : Nat) (output res : String), Balanced color output →
      formatMapLoop color inline len entries i output = .ok res →
      Balanced color res := by
  induction entries with
  | nil =>
    intro i output res hout h
    simp only [formatMapLoop, Except.ok.injEq] at h
    exact h ▸ hout
  | cons e rest ihrest =>
    intro i output res hout h
    obtain ⟨key, found⟩ := e
    rw [formatMapLoop] at h
    cases hv : formatIndexed found color with
    | error e => simp [hv] at h
    | ok item =>
      have hitem : Balanced color item := ih (key, found) (by simp) item hv
      have hkey : noEsc key = true := hkeys (key, found) (by simp)
      have ihr := ihrest (fun w hw => hkeys w (by simp [hw])) (fun w hw => ih w (by simp [hw]))
      simp only [hv] at h
      cases inline with
      | false =>
        simp only [Bool.false_eq_true, if_false] at h
        exact ihr _ _ _ (balanced_append _ _ _ hout
          (balanced_line color hc _ item hkey hitem)) h
      | true =>
        simp only [if_true] at h
        have hfrag := balanced_append _ _ _ hout
          (balanced_fragment color hc _ item hkey hitem)
        split at h
        · exact ihr _ _ _ (balanced_append _ _ _ hfrag (balanced_text _ _ (by decide))) h
        · exact ihr _ _ _ hfrag h

theorem balanced_structLoop (color : PPColor) (hc : IsColorMarker color) (inline : Bool)
    (width numFields : Nat) (fields : List (String × String × GoValue))
    (hf : escapeFreeFields fields = true) :
    ∀ (i : Nat) (output : String), Balanced color output →
      Balanced color (formatStructLoop color inline width numFields fields i output) := by
  induction fields with
  | nil =>
    intro i output hout
    simpa [formatStructLoop] using hout
  | cons f rest ihrest =>
    intro i output hout
    obtain ⟨fieldName, fieldRepr, fieldValue⟩ := f
    simp only [escapeFreeFields, Bool.and_eq_true] at hf
    obtain ⟨⟨hname, hrepr⟩, hrest⟩ := hf
    rw [formatStructLoop]
    cases inline with
    | false =>
      simp only [Bool.false_eq_true, if_false]
      refine ihrest hrest _ _ (balanced_append _ _ _ hout ?_)
      have e : "  " ++ color ++ fmtWidth width fieldName ++ colorReset ++ ": " ++ fieldRepr ++
          "\n" = "  " ++ ((color ++ fmtWidth width fieldName ++ colorReset) ++
            (": " ++ fieldRepr ++ "\n")) := by
        simp only [String.append_assoc]
      rw [e]
      refine balanced_append _ _ _ (balanced_text _ _ (by decide))
        (balanced_append _ _ _ (balanced_colored color hc _ (noEsc_fmtWidth _ _ hname))
          (balanced_text _ _ ?_))
      simp [noEsc_append, hrepr]
      decide
    | true =>
      simp only [if_true]
      have hfrag : Balanced color
          (output ++ (color ++ fieldName ++ colorReset ++ ": " ++ fieldRepr)) := by
        refine balanced_append _ _ _ hout (balanced_append _ _ _ (balanced_append _ _ _
          (balanced_colored color hc _ hname) (balanced_text _ _ (by decide)))
          (balanced_text _ _ hrepr))
      split
      · exact ihrest hrest _ _ (balanced_append _ _ _ hfrag (balanced_text _ _ (by decide)))
      · exact ihrest hrest _ _ hfrag

theorem balanced_formatStruct (color : PPColor) (hc : IsColorMarker color) (inline : Bool)
    (fields : List (String × String × GoValue)) (hf : escapeFreeFields fields = true) :
    Balanced color (formatStruct fields color inline) := by
  have hd : noEsc (fmtD fields.length) = true := noEsc_fmtD _
  cases inline with
  | false =>
    simp only [formatStruct, Bool.not_false, if_true]
    refine balanced_append _ _ _ (balanced_append _ _ _
      (balanced_structLoop color hc false _ _ fields hf 0 _ ?_)
      (balanced_text _ _ (by decide))) (balanced_text _ _ (by decide))
    have e : "" ++ ("Struct with " ++ color ++ fmtD fields.length ++ colorReset ++ " fields:\n\n")
        ++ "\x7b" ++ "\n" = "Struct with " ++ ((color ++ fmtD fields.length ++ colorReset) ++
          (" fields:\n\n" ++ "\x7b" ++ "\n")) := by
      simp only [String.append_assoc, String.empty_append]
    rw [e]
    exact balanced_append _ _ _ (balanced_text _ _ (by decide))
      (balanced_append _ _ _ (balanced_colored color hc _ hd) (balanced_text _ _ (by decide)))
  | true =>
    simp only [formatStruct, Bool.not_true, Bool.false_eq_true, if_false]
    exact balanced_append _ _ _
      (balanced_structLoop color hc true _ _ fields hf 0 _ (balanced_text _ _ (by decide)))
      (balanced_text _ _ (by decide))

theorem balanced_listHead (color : PPColor) (hc : IsColorMarker color) (elType : GoType)
    (len : Nat) (listType : String) (inline : Bool) (hl : noEsc listType = true)
    (he : noEsc elType.string = true) :
    Balanced color (formatListHead elType len color listType inline) := by
  cases inline with
  | true =>
    simp only [formatListHead, if_true]
    exact balanced_text _ _ (by decide)
  | false =>
    simp only [formatListHead, Bool.false_eq_true, if_false]
    have e : "" ++ (listType ++ " with " ++ color ++ fmtD len ++ colorReset ++
        " elements of type " ++ color ++ elType.string ++ colorReset ++ ":\n\n") =
        (listType ++ " with ") ++ ((color ++ fmtD len ++ colorReset) ++ (" elements of type " ++
          ((color ++ elType.string ++ colorReset) ++ ":\n\n"))) := by
      simp only [String.append_assoc, String.empty_append]
    rw [e]
    refine balanced_append _ _ _ (balanced_text _ _ ?_) (balanced_append _ _ _
      (balanced_colored color hc _ (noEsc_fmtD len)) (balanced_append _ _ _
        (balanced_text _ _ (by decide)) (balanced_append _ _ _
          (balanced_colored color hc _ he) (balanced_text _ _ (by decide)))))
    simp [noEsc_append, hl]
    decide

theorem balanced_mapHead (color : PPColor) (hc : IsColorMarker color) (keyT : GoType)
    (valueType : String) (len : Nat) (inline : Bool) (hk : noEsc keyT.string = true)
    (hv : noEsc valueType = true) :
    Balanced color (formatMapHead keyT valueType len color inline) := by
  cases inline with
  | true =>
    simp only [formatMapHead, if_true]
    exact balanced_text _ _ (by decide)
  | false =>
    simp only [formatMapHead, Bool.false_eq_true, if_false]
    have e : "" ++ ("Map: " ++ color ++ fmtD len ++ colorReset ++ " elements, key type " ++
        color ++ keyT.string ++ colorReset ++ ", value type " ++ color ++ valueType ++
        colorReset ++ ":\n\n") =
        "Map: " ++ ((color ++ fmtD len ++ colorReset) ++ (" elements, key type " ++
          ((color ++ keyT.string ++ colorReset) ++ (", value type " ++
            ((color ++ valueType ++ colorReset) ++ ":\n\n"))))) := by
      simp only [String.append_assoc, String.empty_append]
    rw [e]
    exact balanced_append _ _ _ (balanced_text _ _ (by decide)) (balanced_append _ _ _
      (balanced_colored color hc _ (noEsc_fmtD len)) (balanced_append _ _ _
        (balanced_text _ _ (by decide)) (balanced_append _ _ _
          (balanced_colored color hc _ hk) (balanced_append _ _ _
            (balanced_text _ _ (by decide)) (balanced_append _ _ _
              (balanced_colored color hc _ hv) (balanced_text _ _ (by decide)))))))

theorem balanced_listTail (color : PPColor) (inline : Bool) (output : String)
    (h : Balanced color output) : Balanced color (formatListTail inline output) := by
  cases inline with
  | true => exact balanced_append _ _ _ h (balanced_text _ _ (by decide))
  | false => exact balanced_append _ _ _ h (balanced_text _ _ (by decide))

/-- Induction on a value, the hypothesis available for every child. -/
theorem GoValue.induction {P : GoValue → Prop} (nil : P .nil)
    (scalar : ∀ kind type repr, P (.scalar kind type repr))
    (array : ∀ elem items, (∀ v ∈ items, P v) → P (.array elem items))
    (slice : ∀ elem items, (∀ v ∈ items, P v) → P (.slice elem items))
    (map : ∀ key elem entries, (∀ e ∈ entries, ∀ v, e.2 = some v → P v) →
      P (.map key elem entries))
    (struct : ∀ fields, (∀ f ∈ fields, P f.2.2) → P (.struct fields)) :
    ∀ v, P v := by
  intro v
  refine @GoValue.rec P (fun l => ∀ v ∈ l, P v) (fun l => ∀ e ∈ l, ∀ v, e.2 = some v → P v)
    (fun l => ∀ f ∈ l, P f.2.2) (fun e => ∀ v, e.2 = some v → P v) (fun f => P f.2.2)
    (fun o => ∀ v, o = some v → P v) (fun p => P p.2)
    nil scalar array slice map struct ?_ ?_ ?_ ?_ ?_ ?_ ?_ ?_ ?_ ?_ ?_ v
  · intro v hv
    simp at hv
  · intro head tail hh ht v hv
    rcases List.mem_cons.mp hv with rfl | hv
    · exact hh
    · exact ht v hv
  · intro e he
    simp at he
  · intro head tail hh ht e he
    rcases List.mem_cons.mp he with rfl | he
    · exact hh
    · exact ht e he
  · intro f hf
    simp at hf
  · intro head tail hh ht f hf
    rcases List.mem_cons.mp hf with rfl | hf
    · exact hh
    · exact ht f hf
  · intro _ _ h
    exact h
  · intro _ _ h
    exact h
  · intro v hv
    simp at hv
  · intro val h v hv
    cases hv
    exact h
  · intro _ _ h
    exact h

theorem escapeFreeItems_mem (items : List GoValue) (h : escapeFreeItems items = true) :
    ∀ v ∈ items, v.escapeFree = true := by
  induction items with
  | nil => simp
  | cons w rest ih =>
    simp only [escapeFreeItems, Bool.and_eq_true] at h
    intro v hv
    rcases List.mem_cons.mp hv with rfl | hv
    · exact h.1
    · exact ih h.2 v hv

theorem escapeFreeEntries_mem (entries : List (String × Option GoValue))
    (h : escapeFreeEntries entries = true) :
    ∀ e ∈ entries, noEsc e.1 = true ∧ ∀ v, e.2 = some v → v.escapeFree = true := by
  induction entries with
  | nil => simp
  | cons w rest ih =>
    obtain ⟨key, found⟩ := w
    intro e he
    cases found with
    | none =>
      simp only [escapeFreeEntries, Bool.and_eq_true] at h
      rcases List.mem_cons.mp he with rfl | he
      · exact ⟨h.1, fun v hv => by simp at hv⟩
      · exact ih h.2 e he
    | some w =>
      simp only [escapeFreeEntries, Bool.and_eq_true] at h
      rcases List.mem_cons.mp he with rfl | he
      · exact ⟨h.1.1, fun v hv => by cases hv; exact h.1.2⟩
      · exact ih h.2 e he

theorem formatIndexed_ok (found : Option GoValue) (color : PPColor) (s : String)
    (h : formatIndexed found color = .ok s) :
    ∃ v, found = some v ∧ formatValue v color true = .ok s := by
  cases found with
  | none => simp [formatIndexed] at h
  | some v => exact ⟨v, rfl, by simpa [formatIndexed] using h⟩

theorem balanced_formatValue (color : PPColor) (hc : IsColorMarker color) :
    ∀ v : GoValue, v.escapeFree = true →
      ∀ (inline : Bool) (s : String), formatValue v color inline = .ok s → Balanced color s := by
  intro v
  induction v using GoValue.induction with
  | nil =>
    intro _ inline s h
    cases inline with
    | false => simp [formatValue] at h
    | true =>
      simp only [formatValue, if_true, Except.ok.injEq] at h
      exact h ▸ balanced_text _ _ (by decide)
  | scalar kind type repr =>
    intro hv inline s h
    simp only [GoValue.escapeFree, Bool.and_eq_true] at hv
    cases inline with
    | true =>
      simp only [formatValue, if_true, Except.ok.injEq] at h
      exact h ▸ balanced_text _ _ hv.2
    | false =>
      simp only [formatValue, Bool.false_eq_true, if_false, Except.ok.injEq] at h
      have e : repr ++ " (" ++ color ++ type.string ++ colorReset ++ ")\n\n" =
          (repr ++ " (") ++ ((color ++ type.string ++ colorReset) ++ ")\n\n") := by
        simp only [String.append_assoc]
      rw [← h, e]
      refine balanced_append _ _ _ (balanced_text _ _ ?_) (balanced_append _ _ _
        (balanced_colored color hc _ hv.1) (balanced_text _ _ (by decide)))
      simp [noEsc_append, hv.2]
      decide
  | array elem items ih =>
    intro hv inline s h
    simp only [GoValue.escapeFree, Bool.and_eq_true] at hv
    have hmem := escapeFreeItems_mem items hv.2
    simp only [formatValue] at h
    cases hl : formatListLoop color inline (fmtD items.length).length items.length items 0
        (formatListHead elem items.length color "Array" inline) with
    | error e => simp [hl, Except.map] at h
    | ok output =>
      simp only [hl, Except.map, Except.ok.injEq] at h
      rw [← h]
      exact balanced_listTail _ _ _ (balanced_listLoop color hc inline _ _ items
        (fun v hvm s hs => ih v hvm (hmem v hvm) true s hs) 0 _ output
        (balanced_listHead color hc elem _ "Array" inline (by decide) hv.1) hl)
  | slice elem items ih =>
    intro hv inline s h
    simp only [GoValue.escapeFree, Bool.and_eq_true] at hv
    have hmem := escapeFreeItems_mem items hv.2
    simp only [formatValue] at h
    cases hl : formatListLoop color inline (fmtD items.length).length items.length items 0
        (formatListHead elem items.length color "Slice" inline) with
    | error e => simp [hl, Except.map] at h
    | ok output =>
      simp only [hl, Except.map, Except.ok.injEq] at h
      rw [← h]
      exact balanced_listTail _ _ _ (balanced_listLoop color hc inline _ _ items
        (fun v hvm s hs => ih v hvm (hmem v hvm) true s hs) 0 _ output
        (balanced_listHead color hc elem _ "Slice" inline (by decide) hv.1) hl)
  | map key elem entries ih =>
    intro hv inline s h
    simp only [GoValue.escapeFree, Bool.and_eq_true] at hv
    have hmem := escapeFreeEntries_mem entries hv.2
    simp only [formatValue] at h
    split at h
    · cases hl : formatMapLoop color inline entries.length entries 0
          (formatMapHead key elem.name entries.length color inline) with
      | error e => simp [hl, Except.map] at h
      | ok output =>
        simp only [hl, Except.map, Except.ok.injEq] at h
        rw [← h]
        exact balanced_listTail _ _ _ (balanced_mapLoop color hc inline _ entries
          (fun e he => (hmem e he).1)
          (fun e he s hs => by
            obtain ⟨v, hv, hs⟩ := formatIndexed_ok _ _ _ hs
            exact ih e he v hv ((hmem e he).2 v hv) true s hs) 0 _ output
          (balanced_mapHead color hc key _ _ inline hv.1.1 hv.1.2) hl)
    · simp at h
  | struct fields _ =>
    intro hv inline s h
    simp only [GoValue.escapeFree] at hv
    simp only [formatValue, Except.ok.injEq] at h
    exact h ▸ balanced_formatStruct color hc inline fields hv

/-- C10: for every value on which `formatValue` returns, in either mode and
with every colour marker `color` (an ESC character, then characters other than
`m`, then `m`; the four colours of the source are such), the escape sequences
that occur in the output, read left to right, are `color`, Reset, `color`,
Reset, ...: some number `k` of pairs, each `color` followed by Reset, so that
the first (if there is any) is `color`, the last is Reset, and none is left
open or nested.  The texts copied from the value (Debug-Reprs, type names,
field names) are assumed to hold no ESC character. -/
theorem formatValue_markers_balanced (v : GoValue) (color : PPColor) (inline : Bool)
    (s : String) (hc : IsColorMarker color) (hv : v.escapeFree = true)
    (h : formatValue v color inline = .ok s) :
    ∃ k : Nat, escapeSeqs s = (List.replicate k [color, colorReset]).flatten := by
  obtain ⟨k, hk⟩ := balanced_formatValue color hc v hv inline s h
  refine ⟨k, ?_⟩
  have := hk []
  simpa [escapeSeqs, escapeSeqsAux] using this

/-- Witness of C10: the four colours are colour markers, and the Block rendering
in red of a slice that holds an int and a map holds five pairs of markers. -/
theorem formatValue_markers_balanced_witness :
    IsColorMarker colorRed ∧ IsColorMarker colorGreen ∧ IsColorMarker colorYellow ∧
    IsColorMarker colorBlue ∧ sampleSlice.escapeFree = true ∧
    formatValue sampleSlice colorRed false =
      .ok ("Slice with \x1b[31m2\x1b[0m elements of type \x1b[31minterface \x7b\x7d\x1b[0m:\n\n" ++
        "\x1b[31m[0]\x1b[0m 7\n\x1b[31m[1]\x1b[0m \x7b\x1b[31m[\"a\"]\x1b[0m 1\x7d\n\n") ∧
    (∃ k : Nat,
      escapeSeqs ("Slice with \x1b[31m2\x1b[0m elements of type \x1b[31minterface \x7b\x7d\x1b[0m:\n\n" ++
        "\x1b[31m[0]\x1b[0m 7\n\x1b[31m[1]\x1b[0m \x7b\x1b[31m[\"a\"]\x1b[0m 1\x7d\n\n") =
      (List.replicate k [colorRed, colorReset]).flatten) ∧
    escapeSeqs ("Slice with \x1b[31m2\x1b[0m elements of type \x1b[31minterface \x7b\x7d\x1b[0m:\n\n" ++
        "\x1b[31m[0]\x1b[0m 7\n\x1b[31m[1]\x1b[0m \x7b\x1b[31m[\"a\"]\x1b[0m 1\x7d\n\n") =
      (List.replicate 5 [colorRed, colorReset]).flatten :=
  ⟨⟨['[', '3', '1'], rfl, by decide⟩, ⟨['[', '3', '2'], rfl, by decide⟩,
    ⟨['[', '3', '3'], rfl, by decide⟩, ⟨['[', '3', '4'], rfl, by decide⟩, by decide, by decide,
    formatValue_markers_balanced sampleSlice colorRed false _ ⟨['[', '3', '1'], rfl, by decide⟩
      (by decide) (by decide), by decide⟩


/-! ## The value type in the header of a map (C12) -/

/-- C12 (the code differs): the header of `formatMap` names the key type by its
`String()` and the value type by its `Name()`.  For the map
`map[string][]int{"a": {1}}` the value type `[]int` has the empty name, and the
header reads `value type ` followed by nothing, where the header of the slice
`[]int{1}` names the same type `[]int`. -/
theorem formatMap_value_type_unnamed :
    (formatValue sampleMapOfSlices colorRed false).map stripColors =
      .ok "Map: 1 elements, key type string, value type :\n\n[\"a\"] \x7b[0] 1\x7d\n\n" ∧
    (formatList ⟨"", "[]int"⟩ [GoValue.slice ⟨"int", "int"⟩ [goInt 1]] colorRed "Slice"
        false).map stripColors =
      .ok "Slice with 1 elements of type []int:\n\n[0] \x7b[0] 1\x7d\n\n" ∧
    (∀ (keyT elemT : GoType) (len : Nat) (color : PPColor),
      formatMapHead keyT elemT.name len color false =
        "Map: " ++ color ++ fmtD len ++ colorReset ++ " elements, key type " ++ color ++
          keyT.string ++ colorReset ++ ", value type " ++ color ++ elemT.name ++ colorReset ++
          ":\n\n") := by
  refine ⟨by decide, by decide, fun _ _ _ _ => ?_⟩
  simp [formatMapHead]

/-! ## The list without items (C15) -/

/-- C15: for a list without items and every colour `formatList` returns, and its
Block rendering is the header that reports `0` elements,
`<label> with <color>0<Reset> elements of type <color><elementType><Reset>:\n\n`,
followed by no item line and one line break; so it is for the empty array and
the empty slice given to `formatValue`. -/
theorem formatList_empty_block (elType : GoType) (color : PPColor) (listType : String) :
    formatList elType [] color listType false =
      .ok (listType ++ " with " ++ color ++ "0" ++ colorReset ++ " elements of type " ++
        color ++ elType.string ++ colorReset ++ ":\n\n" ++ "\n") ∧
    formatValue (.array elType []) color false =
      .ok ("Array" ++ " with " ++ color ++ "0" ++ colorReset ++ " elements of type " ++
        color ++ elType.string ++ colorReset ++ ":\n\n" ++ "\n") ∧
    formatValue (.slice elType []) color false =
      .ok ("Slice" ++ " with " ++ color ++ "0" ++ colorReset ++ " elements of type " ++
        color ++ elType.string ++ colorReset ++ ":\n\n" ++ "\n") := by
  have h0 : fmtD 0 = "0" := by decide
  refine ⟨?_, ?_, ?_⟩ <;>
    simp [formatList, formatValue, formatListLoop, formatListHead, formatListTail, Except.map,
      h0]

/-! ## Classification and dispatch (C16) -/

/-- C16: `formatValue` dispatches on the kind of the value, the colour and the
mode handed on as they are: an array goes to `formatList` with the label
`Array`, a slice to `formatList` with the label `Slice`, a map to `formatMap`,
a struct to `formatStruct`, and every other value (of any other kind, a pointer
to a struct among them, and the nil interface) to the general case.  Every
value has exactly one shape, which its kind decides. -/
theorem formatValue_dispatch (color : PPColor) (inline : Bool) :
    (∀ elem items, classify (.array elem items) = .Sequence ∧
      formatValue (.array elem items) color inline =
        formatList elem items color "Array" inline) ∧
    (∀ elem items, classify (.slice elem items) = .Sequence ∧
      formatValue (.slice elem items) color inline =
        formatList elem items color "Slice" inline) ∧
    (∀ key elem entries, classify (.map key elem entries) = .KeyedMapping ∧
      formatValue (.map key elem entries) color inline =
        formatMap key elem entries color inline) ∧
    (∀ fields, classify (.struct fields) = .Record ∧
      formatValue (.struct fields) color inline = .ok (formatStruct fields color inline)) ∧
    (∀ kind type repr, classify (.scalar kind type repr) = .Scalar ∧
      formatValue (.scalar kind type repr) color inline =
        formatScalar repr (some type) color inline) ∧
    (classify .nil = .Scalar ∧
      formatValue .nil color inline = formatScalar "<nil>" none color inline) ∧
    (∀ v : GoValue,
      (classify v = .Sequence ↔ v.kind = .Array ∨ v.kind = .Slice) ∧
      (classify v = .KeyedMapping ↔ v.kind = .Map) ∧
      (classify v = .Record ↔ v.kind = .Struct) ∧
      (classify v = .Scalar ↔
        v.kind ≠ .Array ∧ v.kind ≠ .Slice ∧ v.kind ≠ .Map ∧ v.kind ≠ .Struct)) ∧
    (GoValue.scalar .Pointer ⟨"", "*main.T"⟩ "&main.T\x7bA:1\x7d").kind = .Pointer := by
  refine ⟨fun e i => ⟨rfl, formatValue_array e i color inline⟩,
    fun e i => ⟨rfl, formatValue_slice e i color inline⟩,
    fun k e en => ⟨rfl, formatValue_map k e en color inline⟩,
    fun f => ⟨rfl, by simp [formatValue]⟩, ?_, ?_, ?_, rfl⟩
  · intro kind type repr
    refine ⟨by cases kind <;> rfl, ?_⟩
    cases inline <;> simp [formatValue, formatScalar]
  · refine ⟨rfl, ?_⟩
    cases inline <;> simp [formatValue, formatScalar]
  · intro v
    unfold classify
    split_ifs <;> simp_all

/-! ## The public functions (C17) -/

/-- C17: each of `PPrintRed`, `PPrintGreen`, `PPrintYellow` and `PPrintBlue`
appends to standard output the text `formatValue(value, itsColor, Block)`, the
mode of the top-level call being Block; the four colours are the escape
sequences with the codes 31, 32, 33 and 34, distinct from one another and from
Reset, the escape sequence with the code 0. -/
theorem pprint_entry_points (value : GoValue) (stdout : String) :
    PPrintRed value stdout =
      (formatValue value colorRed false).map (fun text => stdout ++ text) ∧
    PPrintGreen value stdout =
      (formatValue value colorGreen false).map (fun text => stdout ++ text) ∧
    PPrintYellow value stdout =
      (formatValue value colorYellow false).map (fun text => stdout ++ text) ∧
    PPrintBlue value stdout =
      (formatValue value colorBlue false).map (fun text => stdout ++ text) ∧
    [colorRed, colorGreen, colorYellow, colorBlue, colorReset].Nodup ∧
    [colorRed, colorGreen, colorYellow, colorBlue, colorReset] =
      ["\x1b[31m", "\x1b[32m", "\x1b[33m", "\x1b[34m", "\x1b[0m"] ∧
    PPrintRed (goInt 7) "" = .ok "7 (\x1b[31mint\x1b[0m)\n\n" := by
  refine ⟨rfl, rfl, rfl, rfl, by decide, by decide, by decide⟩

/-! ## The end of a Block rendering (C18) -/

theorem endsNL_listLoop (color : PPColor) (colWidth len : Nat) (items : List GoValue) :
    ∀ (i : Nat) (output res : String), (∃ t : String, output = t ++ "\n") →
      formatListLoop color false colWidth len items i output = .ok res →
      ∃ t : String, res = t ++ "\n" := by
  induction items with
  | nil =>
    intro i output res hout h
    simp only [formatListLoop, Except.ok.injEq] at h
    exact h ▸ hout
  | cons v rest ih =>
    intro i output res _ h
    rw [formatListLoop] at h
    cases hv : formatValue v color true with
    | error e => simp [hv] at h
    | ok item =>
      simp only [hv, Bool.false_eq_true, if_false] at h
      refine ih _ _ _ ⟨output ++ (color ++ "[" ++ fmtWidth colWidth (fmtD i) ++ "]" ++
        colorReset ++ " " ++ item), ?_⟩ h
      simp only [String.append_assoc]

theorem endsNL_mapLoop (color : PPColor) (len : Nat) (entries : List (String × Option GoValue)) :
    ∀ (i : Nat) (output res : String), (∃ t : String, output = t ++ "\n") →
      formatMapLoop color false len entries i output = .ok res →
      ∃ t : String, res = t ++ "\n" := by
  induction entries with
  | nil =>
    intro i output res hout h
    simp only [formatMapLoop, Except.ok.injEq] at h
    exact h ▸ hout
  | cons e rest ih =>
    intro i output res _ h
    obtain ⟨key, found⟩ := e
    rw [formatMapLoop] at h
    cases hv : formatIndexed found color with
    | error e => simp [hv] at h
    | ok item =>
      simp only [hv, Bool.false_eq_true, if_false] at h
      refine ih _ _ _ ⟨output ++ (color ++ "[" ++ key ++ "]" ++ colorReset ++ " " ++ item), ?_⟩ h
      simp only [String.append_assoc]

theorem endsNL_listHead (elType : GoType) (len : Nat) (color : PPColor) (listType : String) :
    ∃ t : String, formatListHead elType len color listType false = t ++ "\n" := by
  refine ⟨"" ++ (listType ++ " with " ++ color ++ fmtD len ++ colorReset ++
    " elements of type " ++ color ++ elType.string ++ colorReset ++ ":\n"), ?_⟩
  simp only [formatListHead, Bool.false_eq_true, if_false, String.append_assoc]
  rfl

theorem endsNL_mapHead (keyT : GoType) (valueType : String) (len : Nat) (color : PPColor) :
    ∃ t : String, formatMapHead keyT valueType len color false = t ++ "\n" := by
  refine ⟨"" ++ ("Map: " ++ color ++ fmtD len ++ colorReset ++ " elements, key type " ++
    color ++ keyT.string ++ colorReset ++ ", value type " ++ color ++ valueType ++
    colorReset ++ ":\n"), ?_⟩
  simp only [formatMapHead, Bool.false_eq_true, if_false, String.append_assoc]
  rfl

theorem two_line_breaks (t : String) : t ++ "\n" ++ "\n" = t ++ "\n\n" := by
  rw [String.append_assoc]
  rfl

/-- C18: for every value on which `formatValue` returns in Block mode, and every
colour, the text ends with two line breaks, whatever the kind of the value: a
scalar, a list with or without items, a map, a struct with any number of
fields. -/
theorem formatValue_block_ends_blank (v : GoValue) (color : PPColor) (s : String)
    (h : formatValue v color false = .ok s) : ∃ t : String, s = t ++ "\n\n" := by
  cases v with
  | nil => simp [formatValue] at h
  | scalar kind type repr =>
    simp only [formatValue, Bool.false_eq_true, if_false, Except.ok.injEq] at h
    refine ⟨repr ++ " (" ++ color ++ type.string ++ colorReset ++ ")", ?_⟩
    rw [← h]
    simp only [String.append_assoc]
    rfl
  | array elem items =>
    simp only [formatValue] at h
    cases hl : formatListLoop color false (fmtD items.length).length items.length items 0
        (formatListHead elem items.length color "Array" false) with
    | error e => simp [hl, Except.map] at h
    | ok output =>
      simp only [hl, Except.map, Except.ok.injEq, formatListTail, Bool.false_eq_true,
        if_false] at h
      obtain ⟨t, ht⟩ := endsNL_listLoop color _ _ items 0 _ output (endsNL_listHead _ _ _ _) hl
      exact ⟨t, by rw [← h, ht, two_line_breaks]⟩
  | slice elem items =>
    simp only [formatValue] at h
    cases hl : formatListLoop color false (fmtD items.length).length items.length items 0
        (formatListHead elem items.length color "Slice" false) with
    | error e => simp [hl, Except.map] at h
    | ok output =>
      simp only [hl, Except.map, Except.ok.injEq, formatListTail, Bool.false_eq_true,
        if_false] at h
      obtain ⟨t, ht⟩ := endsNL_listLoop color _ _ items 0 _ output (endsNL_listHead _ _ _ _) hl
      exact ⟨t, by rw [← h, ht, two_line_breaks]⟩
  | map key elem entries =>
    simp only [formatValue] at h
    split at h
    · cases hl : formatMapLoop color false entries.length entries 0
          (formatMapHead key elem.name entries.length color false) with
      | error e => simp [hl, Except.map] at h
      | ok output =>
        simp only [hl, Except.map, Except.ok.injEq, formatListTail, Bool.false_eq_true,
          if_false] at h
        obtain ⟨t, ht⟩ := endsNL_mapLoop color _ entries 0 _ output (endsNL_mapHead _ _ _ _) hl
        exact ⟨t, by rw [← h, ht, two_line_breaks]⟩
    · simp at h
  | struct fields =>
    simp only [formatValue, Except.ok.injEq] at h
    refine ⟨formatStructLoop color false (maxNameLength fields) fields.length fields 0
      ("" ++ ("Struct with " ++ color ++ fmtD fields.length ++ colorReset ++ " fields:\n\n") ++
        "\x7b" ++ "\n") ++ "\x7d", ?_⟩
    rw [← h]
    simp [formatStruct]

/-- Witness of C18: the Block rendering in green of a slice that holds an int
and a map. -/
theorem formatValue_block_ends_blank_witness :
    formatValue sampleSlice colorGreen false =
      .ok ("Slice with \x1b[32m2\x1b[0m elements of type \x1b[32minterface \x7b\x7d\x1b[0m:\n\n" ++
        "\x1b[32m[0]\x1b[0m 7\n\x1b[32m[1]\x1b[0m \x7b\x1b[32m[\"a\"]\x1b[0m 1\x7d\n\n") ∧
    ∃ t : String,
      "Slice with \x1b[32m2\x1b[0m elements of type \x1b[32minterface \x7b\x7d\x1b[0m:\n\n" ++
        "\x1b[32m[0]\x1b[0m 7\n\x1b[32m[1]\x1b[0m \x7b\x1b[32m[\"a\"]\x1b[0m 1\x7d\n\n" =
      t ++ "\n\n" :=
  ⟨by decide, formatValue_block_ends_blank sampleSlice colorGreen _ (by decide)⟩

/-! ## The index column of a list (C19) -/

theorem toDigitsCore_length_log (fuel : Nat) :
    ∀ (n : Nat) (ds : List Char), n < fuel →
      (Nat.toDigitsCore 10 fuel n ds).length = Nat.log 10 n + 1 + ds.length := by
  induction fuel with
  | zero =>
    intro n ds h
    omega
  | succ fuel ih =>
    intro n ds h
    simp only [Nat.toDigitsCore]
    split
    · rename_i h0
      have hn : n < 10 := by omega
      rw [Nat.log_of_lt hn]
      simp
      omega
    · rename_i h0
      have hn : 10 ≤ n := by omega
      rw [ih _ _ (by omega), Nat.log_of_one_lt_of_le (by decide) hn]
      simp
      omega

theorem fmtD_length (n : Nat) : (fmtD n).length = Nat.log 10 n + 1 := by
  show (Nat.toDigits 10 n).asString.length = _
  have h := toDigitsCore_length_log (n + 1) n [] (by omega)
  simpa [Nat.toDigits, List.asString, String.length] using h

theorem fmtWidth_length (width : Nat) (s : String) :
    (fmtWidth width s).length = max width s.length := by
  rw [fmtWidth, String.length_append]
  have h : (String.mk (List.replicate (width - s.length) ' ')).length = width - s.length := by
    show (List.replicate (width - s.length) ' ').length = width - s.length
    rw [List.length_replicate]
  rw [h]
  omega

theorem formatList_block_eq (elType : GoType) (items : List GoValue) (color : PPColor)
    (listType : String) :
    formatList elType items color listType false =
      (items.mapM fun v => formatValue v color true).map fun rendered =>
        formatListHead elType items.length color listType false ++
          String.join (rendered.enum.map (listLine color (fmtD items.length).length)) ++
          "\n" := by
  simp only [formatList]
  rw [formatListLoop_block color _ _ items]
  cases (items.mapM fun v => formatValue v color true) with
  | error e => rfl
  | ok rendered => simp [Except.map, formatListTail, List.enum]

/-- C19: in the Block rendering of `formatList` the index column is aligned.
The column width is the number of decimal digits of the length `N`; for every
index `i < N` the decimal text of `i` is no longer than that width, so the
padded index between the brackets has exactly that width on every item line,
and no index is wider than the column. -/
theorem formatList_index_aligned (elType : GoType) (items : List GoValue) (color : PPColor)
    (listType : String) (i : Nat) (h : i < items.length) :
    (fmtD items.length).length = Nat.log 10 items.length + 1 ∧
    (fmtD i).length ≤ (fmtD items.length).length ∧
    (fmtWidth (fmtD items.length).length (fmtD i)).length = (fmtD items.length).length ∧
    formatList elType items color listType false =
      ((items.mapM fun v => formatValue v color true).map fun rendered =>
        formatListHead elType items.length color listType false ++
          String.join (rendered.enum.map fun p =>
            color ++ "[" ++ fmtWidth (fmtD items.length).length (fmtD p.1) ++ "]" ++
              colorReset ++ " " ++ p.2 ++ "\n") ++
          "\n") := by
  have hle : (fmtD i).length ≤ (fmtD items.length).length := by
    rw [fmtD_length, fmtD_length]
    exact Nat.succ_le_succ (Nat.log_mono_right (Nat.le_of_lt h))
  refine ⟨fmtD_length _, hle, ?_, formatList_block_eq elType items color listType⟩
  rw [fmtWidth_length]
  omega

/-- Witness of C19: the index 9 in a list of eleven items, whose column is two
characters wide. -/
theorem formatList_index_aligned_witness :
    9 < (List.replicate 11 (goInt 0)).length ∧
    (fmtD 9).length ≤ (fmtD (List.replicate 11 (goInt 0)).length).length ∧
    fmtWidth (fmtD (List.replicate 11 (goInt 0)).length).length (fmtD 9) = " 9" :=
  ⟨by decide,
    (formatList_index_aligned ⟨"int", "int"⟩ (List.replicate 11 (goInt 0)) colorRed "Slice" 9
      (by decide)).2.1,
    by decide⟩

/-! ## The field-name column of a struct (C20) -/

theorem length_le_utf8ByteSize (s : String) : s.length ≤ s.utf8ByteSize := by
  obtain ⟨cs⟩ := s
  show cs.length ≤ String.utf8ByteSize ⟨cs⟩
  induction cs with
  | nil => simp
  | cons c cs ih =>
    have := c.utf8Size_pos
    simp only [String.utf8ByteSize_mk, String.utf8Len_cons, List.length_cons] at ih ⊢
    omega

theorem le_maxNameLength (fields : List (String × String × GoValue)) :
    ∀ f ∈ fields, f.1.utf8ByteSize ≤ maxNameLength fields := by
  rw [maxNameLength_eq]
  induction fields with
  | nil => simp
  | cons g rest ih =>
    intro f hf
    simp only [List.map_cons, List.foldr_cons]
    rcases List.mem_cons.mp hf with rfl | hf
    · exact Nat.le_max_left _ _
    · exact Nat.le_trans (ih f hf) (Nat.le_max_right _ _)

/-- C20: in the Block rendering of `formatStruct` the field-name column is
aligned.  `maxNameLength` is the greatest of the lengths (in bytes, as `len`
counts) of the field names, 0 for a struct without fields; every field name is
no longer than `maxNameLength`, in bytes and so in characters; therefore the
padded field name has exactly `maxNameLength` characters on every field line,
and the text before `: ` has the same number of characters on all lines. -/
theorem formatStruct_names_aligned (fields : List (String × String × GoValue))
    (color : PPColor) :
    maxNameLength fields = (fields.map fun f => f.1.utf8ByteSize).foldr max 0 ∧
    maxNameLength [] = 0 ∧
    (∀ f ∈ fields,
      f.1.utf8ByteSize ≤ maxNameLength fields ∧
      f.1.length ≤ maxNameLength fields ∧
      (fmtWidth (maxNameLength fields) f.1).length = maxNameLength fields ∧
      ("  " ++ color ++ fmtWidth (maxNameLength fields) f.1 ++ colorReset).length =
        2 + color.length + maxNameLength fields + colorReset.length) ∧
    formatStruct fields color false =
      "Struct with " ++ color ++ fmtD fields.length ++ colorReset ++ " fields:\n\n" ++ "\x7b\n" ++
        String.join (fields.map fun f =>
          "  " ++ color ++ fmtWidth (maxNameLength fields) f.1 ++ colorReset ++ ": " ++
            f.2.1 ++ "\n") ++
        "\x7d\n\n" := by
  refine ⟨maxNameLength_eq fields, rfl, ?_, formatStruct_block_eq fields color⟩
  intro f hf
  have hb := le_maxNameLength fields f hf
  have hl := Nat.le_trans (length_le_utf8ByteSize f.1) hb
  have hw : (fmtWidth (maxNameLength fields) f.1).length = maxNameLength fields := by
    rw [fmtWidth_length]
    omega
  refine ⟨hb, hl, hw, ?_⟩
  simp only [String.length_append, hw]
  rfl

/-- Witness of C20: the field `A` of the struct with the fields `A` and `Bcd`,
padded to the three characters of `Bcd`. -/
theorem formatStruct_names_aligned_witness :
    (("A", "1", goInt 1) : String × String × GoValue) ∈
      [("A", "1", goInt 1), ("Bcd", "2", goInt 2)] ∧
    maxNameLength [("A", "1", goInt 1), ("Bcd", "2", goInt 2)] = 3 ∧
    (fmtWidth (maxNameLength [("A", "1", goInt 1), ("Bcd", "2", goInt 2)]) "A").length =
      maxNameLength [("A", "1", goInt 1), ("Bcd", "2", goInt 2)] ∧
    fmtWidth (maxNameLength [("A", "1", goInt 1), ("Bcd", "2", goInt 2)]) "A" = "  A" :=
  ⟨by simp, by decide,
    ((formatStruct_names_aligned [("A", "1", goInt 1), ("Bcd", "2", goInt 2)] colorRed).2.2.1
      ("A", "1", goInt 1) (by simp)).2.2.1,
    by decide⟩


/-! ## The Inline rendering is one line (C13) -/

theorem noNewline_append (s t : String) : noNewline (s ++ t) = (noNewline s && noNewline t) := by
  simp only [noNewline, String.data_append]
  cases hs : s.data.contains '\n' <;> cases ht : t.data.contains '\n' <;>
    simp_all [List.contains_iff_exists_mem_beq]

theorem digitChar_ne_newline : ∀ m < 10, Nat.digitChar m ≠ '\n' := by
  decide

theorem toDigitsCore_noNewline (fuel n : Nat) (ds : List Char) (h : '\n' ∉ ds) :
    '\n' ∉ Nat.toDigitsCore 10 fuel n ds := by
  induction fuel generalizing n ds with
  | zero => simpa [Nat.toDigitsCore] using h
  | succ fuel ih =>
    have hd : '\n' ∉ Nat.digitChar (n % 10) :: ds := by
      simp only [List.mem_cons, not_or]
      exact ⟨fun e => digitChar_ne_newline _ (Nat.mod_lt n (by decide)) e.symm, h⟩
    simp only [Nat.toDigitsCore]
    split
    · exact hd
    · exact ih _ _ hd

theorem noNewline_fmtD (n : Nat) : noNewline (fmtD n) = true := by
  have h : '\n' ∉ (Nat.toDigits 10 n).asString.data := toDigitsCore_noNewline _ _ _ (by simp)
  simpa [noNewline] using h

theorem noNewline_fragment (color t item : String) (hc : noNewline color = true)
    (ht : noNewline t = true) (hitem : noNewline item = true) :
    noNewline (color ++ "[" ++ t ++ "]" ++ colorReset ++ " " ++ item) = true := by
  have h1 : noNewline "[" = true := by decide
  have h2 : noNewline "]" = true := by decide
  have h3 : noNewline colorReset = true := by decide
  have h4 : noNewline " " = true := by decide
  simp [noNewline_append, hc, ht, hitem, h1, h2, h3, h4]

theorem noNewline_listLoop (color : PPColor) (hc : noNewline color = true)
    (colWidth len : Nat) (items : List GoValue)
    (ih : ∀ v ∈ items, ∀ s, formatValue v color true = .ok s → noNewline s = true) :
    ∀ (i : Nat) (output res : String), noNewline output = true →
      formatListLoop color true colWidth len items i output = .ok res →
      noNewline res = true := by
  induction items with
  | nil =>
    intro i output res hout h
    simp only [formatListLoop, Except.ok.injEq] at h
    exact h ▸ hout
  | cons v rest ihrest =>
    intro i output res hout h
    rw [formatListLoop] at h
    cases hv : formatValue v color true with
    | error e => simp [hv] at h
    | ok item =>
      have hfrag := noNewline_fragment color (fmtD i) item hc (noNewline_fmtD i)
        (ih v (by simp) item hv)
      have ihr := ihrest (fun w hw => ih w (by simp [hw]))
      have hsep : noNewline ", " = true := by decide
      simp only [hv, if_true] at h
      split at h
      · exact ihr _ _ _ (by simp [noNewline_append, hout, hfrag, hsep]) h
      · exact ihr _ _ _ (by simp [noNewline_append, hout, hfrag]) h

theorem noNewline_mapLoop (color : PPColor) (hc : noNewline color = true)
    (len : Nat) (entries : List (String × Option GoValue))
    (hkeys : ∀ e ∈ entries, noNewline e.1 = true)
    (ih : ∀ e ∈ entries, ∀ s, formatIndexed e.2 color = .ok s → noNewline s = true) :
    ∀ (i : Nat) (output res : String), noNewline output = true →
      formatMapLoop color true len entries i output = .ok res →
      noNewline res = true := by
  induction entries with
  | nil =>
    intro i output res hout h
    simp only [formatMapLoop, Except.ok.injEq] at h
    exact h ▸ hout
  | cons e rest ihrest =>
    intro i output res hout h
    obtain ⟨key, found⟩ := e
    rw [formatMapLoop] at h
    cases hv : formatIndexed found color with
    | error e => simp [hv] at h
    | ok item =>
      have hfrag := noNewline_fragment color key item hc (hkeys (key, found) (by simp))
        (ih (key, found) (by simp) item hv)
      have ihr := ihrest (fun w hw => hkeys w (by simp [hw])) (fun w hw => ih w (by simp [hw]))
      have hsep : noNewline ", " = true := by decide
      simp only [hv, if_true] at h
      split at h
      · exact ihr _ _ _ (by simp [noNewline_append, hout, hfrag, hsep]) h
      · exact ihr _ _ _ (by simp [noNewline_append, hout, hfrag]) h

theorem noNewline_structLoop (color : PPColor) (hc : noNewline color = true)
    (width numFields : Nat) (fields : List (String × String × GoValue))
    (hf : newlineFreeFields fields = true) :
    ∀ (i : Nat) (output : String), noNewline output = true →
      noNewline (formatStructLoop color true width numFields fields i output) = true := by
  induction fields with
  | nil =>
    intro i output hout
    simpa [formatStructLoop] using hout
  | cons f rest ihrest =>
    intro i output hout
    obtain ⟨fieldName, fieldRepr, fieldValue⟩ := f
    simp only [newlineFreeFields, Bool.and_eq_true] at hf
    obtain ⟨⟨hname, hrepr⟩, hrest⟩ := hf
    have h3 : noNewline colorReset = true := by decide
    have h4 : noNewline ": " = true := by decide
    have hsep : noNewline ", " = true := by decide
    rw [formatStructLoop]
    simp only [if_true]
    split
    · exact ihrest hrest _ _ (by simp [noNewline_append, hout, hc, hname, hrepr, h3, h4, hsep])
    · exact ihrest hrest _ _ (by simp [noNewline_append, hout, hc, hname, hrepr, h3, h4])

theorem newlineFreeItems_mem (items : List GoValue) (h : newlineFreeItems items = true) :
    ∀ v ∈ items, v.newlineFree = true := by
  induction items with
  | nil => simp
  | cons w rest ih =>
    simp only [newlineFreeItems, Bool.and_eq_true] at h
    intro v hv
    rcases List.mem_cons.mp hv with rfl | hv
    · exact h.1
    · exact ih h.2 v hv

theorem newlineFreeEntries_mem (entries : List (String × Option GoValue))
    (h : newlineFreeEntries entries = true) :
    ∀ e ∈ entries, noNewline e.1 = true ∧ ∀ v, e.2 = some v → v.newlineFree = true := by
  induction entries with
  | nil => simp
  | cons w rest ih =>
    obtain ⟨key, found⟩ := w
    intro e he
    cases found with
    | none =>
      simp only [newlineFreeEntries, Bool.and_eq_true] at h
      rcases List.mem_cons.mp he with rfl | he
      · exact ⟨h.1, fun v hv => by simp at hv⟩
      · exact ih h.2 e he
    | some w =>
      simp only [newlineFreeEntries, Bool.and_eq_true] at h
      rcases List.mem_cons.mp he with rfl | he
      · exact ⟨h.1.1, fun v hv => by cases hv; exact h.1.2⟩
      · exact ih h.2 e he

theorem noNewline_formatValue (color : PPColor) (hc : noNewline color = true) :
    ∀ v : GoValue, v.newlineFree = true →
      ∀ s : String, formatValue v color true = .ok s → noNewline s = true := by
  intro v
  have hopen : noNewline "\x7b" = true := by decide
  have hclose : noNewline "\x7d" = true := by decide
  induction v using GoValue.induction with
  | nil =>
    intro _ s h
    simp only [formatValue, if_true, Except.ok.injEq] at h
    exact h ▸ (by decide)
  | scalar kind type repr =>
    intro hv s h
    simp only [formatValue, if_true, Except.ok.injEq] at h
    exact h ▸ hv
  | array elem items ih =>
    intro hv s h
    simp only [GoValue.newlineFree] at hv
    have hmem := newlineFreeItems_mem items hv
    simp only [formatValue] at h
    cases hl : formatListLoop color true (fmtD items.length).length items.length items 0
        (formatListHead elem items.length color "Array" true) with
    | error e => simp [hl, Except.map] at h
    | ok output =>
      simp only [hl, Except.map, Except.ok.injEq, formatListTail, if_true] at h
      have hout := noNewline_listLoop color hc _ _ items
        (fun v hvm s hs => ih v hvm (hmem v hvm) s hs) 0 _ output
        (by simp [formatListHead, noNewline_append, hopen]) hl
      rw [← h]
      simp [noNewline_append, hout, hclose]
  | slice elem items ih =>
    intro hv s h
    simp only [GoValue.newlineFree] at hv
    have hmem := newlineFreeItems_mem items hv
    simp only [formatValue] at h
    cases hl : formatListLoop color true (fmtD items.length).length items.length items 0
        (formatListHead elem items.length color "Slice" true) with
    | error e => simp [hl, Except.map] at h
    | ok output =>
      simp only [hl, Except.map, Except.ok.injEq, formatListTail, if_true] at h
      have hout := noNewline_listLoop color hc _ _ items
        (fun v hvm s hs => ih v hvm (hmem v hvm) s hs) 0 _ output
        (by simp [formatListHead, noNewline_append, hopen]) hl
      rw [← h]
      simp [noNewline_append, hout, hclose]
  | map key elem entries ih =>
    intro hv s h
    simp only [GoValue.newlineFree] at hv
    have hmem := newlineFreeEntries_mem entries hv
    simp only [formatValue] at h
    split at h
    · cases hl : formatMapLoop color true entries.length entries 0
          (formatMapHead key elem.name entries.length color true) with
      | error e => simp [hl, Except.map] at h
      | ok output =>
        simp only [hl, Except.map, Except.ok.injEq, formatListTail, if_true] at h
        have hout := noNewline_mapLoop color hc _ entries (fun e he => (hmem e he).1)
          (fun e he s hs => by
            obtain ⟨v, hv, hs⟩ := formatIndexed_ok _ _ _ hs
            exact ih e he v hv ((hmem e he).2 v hv) s hs) 0 _ output
          (by simp [formatMapHead, noNewline_append, hopen]) hl
        rw [← h]
        simp [noNewline_append, hout, hclose]
    · simp at h
  | struct fields _ =>
    intro hv s h
    simp only [GoValue.newlineFree] at hv
    simp only [formatValue, Except.ok.injEq] at h
    rw [← h]
    simp only [formatStruct, Bool.not_true, Bool.false_eq_true, if_false]
    have hloop := noNewline_structLoop color hc (maxNameLength fields) fields.length fields hv 0
      ("" ++ "\x7b") (by decide)
    rw [noNewline_append, hloop, hclose]
    rfl

/-- C13: for every value on which `formatValue` returns in Inline mode the text
is one line: it holds no line break, whatever the kind and the nesting of the
value.  The colour is assumed to hold no line break (the four colours of the
source hold none), and so are the texts copied from the value: the Debug-Reprs
of the scalars, of the keys and of the fields, and the field names. -/
theorem formatValue_inline_single_line (v : GoValue) (color : PPColor) (s : String)
    (hc : noNewline color = true) (hv : v.newlineFree = true)
    (h : formatValue v color true = .ok s) : '\n' ∉ s.data := by
  have := noNewline_formatValue color hc v hv s h
  simpa [noNewline] using this

/-- Witness of C13: none of the four colours holds a line break, and the Inline
rendering in yellow of a slice that holds an int and a map is one line. -/
theorem formatValue_inline_single_line_witness :
    noNewline colorRed = true ∧ noNewline colorGreen = true ∧ noNewline colorYellow = true ∧
    noNewline colorBlue = true ∧ sampleSlice.newlineFree = true ∧
    formatValue sampleSlice colorYellow true =
      .ok "\x7b\x1b[33m[0]\x1b[0m 7, \x1b[33m[1]\x1b[0m \x7b\x1b[33m[\"a\"]\x1b[0m 1\x7d\x7d" ∧
    '\n' ∉ ("\x7b\x1b[33m[0]\x1b[0m 7, \x1b[33m[1]\x1b[0m \x7b\x1b[33m[\"a\"]\x1b[0m 1\x7d\x7d" :
      String).data :=
  ⟨by decide, by decide, by decide, by decide, by decide, by decide,
    formatValue_inline_single_line sampleSlice colorYellow _ (by decide) (by decide)
      (by decide)⟩


/-! ## The colour is threaded unchanged (C14) -/

theorem fill_append (color : PPColor) (a b : List (Option String)) :
    fill color (a ++ b) = fill color a ++ fill color b := by
  induction a with
  | nil => simp [fill]
  | cons p a ih =>
    cases p with
    | none => simp [fill, ih, String.append_assoc]
    | some text => simp [fill, ih, String.append_assoc]

theorem templated_text (s : String) : Templated (fun _ => s) :=
  ⟨[some s], fun _ => by simp [fill]⟩

theorem templated_color : Templated (fun color => color) :=
  ⟨[none], fun _ => by simp [fill]⟩

theorem templated_append (f g : PPColor → String) (hf : Templated f) (hg : Templated g) :
    Templated (fun color => f color ++ g color) := by
  obtain ⟨a, ha⟩ := hf
  obtain ⟨b, hb⟩ := hg
  exact ⟨a ++ b, fun color => by beta_reduce; rw [fill_append, ha, hb]⟩

theorem templated_append_text (f : PPColor → String) (s : String) (hf : Templated f) :
    Templated (fun color => f color ++ s) :=
  templated_append f (fun _ => s) hf (templated_text s)

theorem templatedE_ok (f : PPColor → String) (hf : Templated f) :
    TemplatedE (fun color => .ok (f color)) := by
  obtain ⟨a, ha⟩ := hf
  exact ⟨.ok a, fun color => by simp [Except.map, ha]⟩

theorem templatedE_error (e : Panic) : TemplatedE (fun _ => .error e) :=
  ⟨.error e, fun _ => rfl⟩

theorem templatedE_cases (f : PPColor → Except Panic String) (hf : TemplatedE f) :
    (∃ e, ∀ color, f color = .error e) ∨
    (∃ g : PPColor → String, Templated g ∧ ∀ color, f color = .ok (g color)) := by
  obtain ⟨T, hT⟩ := hf
  cases T with
  | error e => exact Or.inl ⟨e, fun color => by rw [hT]; rfl⟩
  | ok t => exact Or.inr ⟨fun color => fill color t, ⟨t, fun _ => rfl⟩, fun color => by beta_reduce; rw [hT]; rfl⟩

theorem templated_fragment (t : String) (g : PPColor → String) (hg : Templated g) :
    Templated (fun color => color ++ "[" ++ t ++ "]" ++ colorReset ++ " " ++ g color) :=
  templated_append _ _ (templated_append_text _ _ (templated_append_text _ _
    (templated_append_text _ _ (templated_append_text _ _
      (templated_append_text _ _ templated_color))))) hg

theorem templated_listLoop (inline : Bool) (colWidth len : Nat) (items : List GoValue)
    (ih : ∀ v ∈ items, TemplatedE (fun color => formatValue v color true)) :
    ∀ (i : Nat) (out : PPColor → String), Templated out →
      TemplatedE (fun color => formatListLoop color inline colWidth len items i (out color)) := by
  induction items with
  | nil =>
    intro i out hout
    obtain ⟨T, hT⟩ := templatedE_ok out hout
    exact ⟨T, fun color => by beta_reduce; rw [formatListLoop]; exact hT color⟩
  | cons v rest ihrest =>
    intro i out hout
    have ihr := ihrest (fun w hw => ih w (by simp [hw]))
    rcases templatedE_cases _ (ih v (by simp)) with ⟨e, he⟩ | ⟨g, hg, hok⟩
    · exact ⟨.error e, fun color => by beta_reduce; rw [formatListLoop, he color]; rfl⟩
    · cases inline with
      | false =>
        obtain ⟨T, hT⟩ := ihr (i + 1)
          (fun color => out color ++ (color ++ "[" ++ fmtWidth colWidth (fmtD i) ++ "]" ++
            colorReset ++ " " ++ g color ++ "\n"))
          (templated_append _ _ hout (templated_append_text _ _ (templated_fragment _ g hg)))
        exact ⟨T, fun color => by beta_reduce; rw [formatListLoop, hok color]; exact hT color⟩
      | true =>
        have hfrag : Templated (fun color => out color ++
            (color ++ "[" ++ fmtD i ++ "]" ++ colorReset ++ " " ++ g color)) :=
          templated_append _ _ hout (templated_fragment _ g hg)
        by_cases hsep : (i : Int) < (len : Int) - 1
        · obtain ⟨T, hT⟩ := ihr (i + 1) _ (templated_append_text _ ", " hfrag)
          refine ⟨T, fun color => ?_⟩
          beta_reduce
          rw [formatListLoop, hok color]
          simp only [if_true, hsep]
          exact hT color
        · obtain ⟨T, hT⟩ := ihr (i + 1) _ hfrag
          refine ⟨T, fun color => ?_⟩
          beta_reduce
          rw [formatListLoop, hok color]
          simp only [if_true, hsep, if_false]
          exact hT color

theorem templated_mapLoop (inline : Bool) (len : Nat) (entries : List (String × Option GoValue))
    (ih : ∀ e ∈ entries, TemplatedE (fun color => formatIndexed e.2 color)) :
    ∀ (i : Nat) (out : PPColor → String), Templated out →
      TemplatedE (fun color => formatMapLoop color inline len entries i (out color)) := by
  induction entries with
  | nil =>
    intro i out hout
    obtain ⟨T, hT⟩ := templatedE_ok out hout
    exact ⟨T, fun color => by beta_reduce; rw [formatMapLoop]; exact hT color⟩
  | cons e rest ihrest =>
    intro i out hout
    obtain ⟨key, found⟩ := e
    have ihr := ihrest (fun w hw => ih w (by simp [hw]))
    rcases templatedE_cases _ (ih (key, found) (by simp)) with ⟨e, he⟩ | ⟨g, hg, hok⟩
    · exact ⟨.error e, fun color => by beta_reduce; rw [formatMapLoop, he color]; rfl⟩
    · cases inline with
      | false =>
        obtain ⟨T, hT⟩ := ihr (i + 1)
          (fun color => out color ++ (color ++ "[" ++ key ++ "]" ++
            colorReset ++ " " ++ g color ++ "\n"))
          (templated_append _ _ hout (templated_append_text _ _ (templated_fragment _ g hg)))
        exact ⟨T, fun color => by beta_reduce; rw [formatMapLoop, hok color]; exact hT color⟩
      | true =>
        have hfrag : Templated (fun color => out color ++
            (color ++ "[" ++ key ++ "]" ++ colorReset ++ " " ++ g color)) :=
          templated_append _ _ hout (templated_fragment _ g hg)
        by_cases hsep : (i : Int) < (len : Int) - 1
        · obtain ⟨T, hT⟩ := ihr (i + 1) _ (templated_append_text _ ", " hfrag)
          refine ⟨T, fun color => ?_⟩
          beta_reduce
          rw [formatMapLoop, hok color]
          simp only [if_true, hsep]
          exact hT color
        · obtain ⟨T, hT⟩ := ihr (i + 1) _ hfrag
          refine ⟨T, fun color => ?_⟩
          beta_reduce
          rw [formatMapLoop, hok color]
          simp only [if_true, hsep, if_false]
          exact hT color

theorem templated_structLoop (inline : Bool) (width numFields : Nat)
    (fields : List (String × String × GoValue)) :
    ∀ (i : Nat) (out : PPColor → String), Templated out →
      Templated (fun color => formatStructLoop color inline width numFields fields i
        (out color)) := by
  induction fields with
  | nil =>
    intro i out hout
    obtain ⟨t, ht⟩ := hout
    exact ⟨t, fun color => by beta_reduce; rw [formatStructLoop]; exact ht color⟩
  | cons f rest ihrest =>
    intro i out hout
    obtain ⟨fieldName, fieldRepr, fieldValue⟩ := f
    cases inline with
    | false =>
      obtain ⟨t, ht⟩ := ihrest (i + 1)
        (fun color => out color ++ ("  " ++ color ++ fmtWidth width fieldName ++ colorReset ++
          ": " ++ fieldRepr ++ "\n"))
        (templated_append _ _ hout (templated_append_text _ _ (templated_append_text _ _
          (templated_append_text _ _ (templated_append_text _ _ (templated_append_text _ _
            (templated_append _ _ (templated_text "  ") templated_color)))))))
      exact ⟨t, fun color => by beta_reduce; rw [formatStructLoop]; exact ht color⟩
    | true =>
      have hfrag : Templated (fun color => out color ++
          (color ++ fieldName ++ colorReset ++ ": " ++ fieldRepr)) :=
        templated_append _ _ hout (templated_append_text _ _ (templated_append_text _ _
          (templated_append_text _ _ (templated_append_text _ _ templated_color))))
      by_cases hsep : (i : Int) < (numFields : Int) - 1
      · obtain ⟨t, ht⟩ := ihrest (i + 1) _ (templated_append_text _ ", " hfrag)
        refine ⟨t, fun color => ?_⟩
        beta_reduce
        rw [formatStructLoop]
        simp only [if_true, hsep]
        exact ht color
      · obtain ⟨t, ht⟩ := ihrest (i + 1) _ hfrag
        refine ⟨t, fun color => ?_⟩
        beta_reduce
        rw [formatStructLoop]
        simp only [if_true, hsep, if_false]
        exact ht color

theorem templated_formatStruct (inline : Bool) (fields : List (String × String × GoValue)) :
    Templated (fun color => formatStruct fields color inline) := by
  cases inline with
  | false =>
    obtain ⟨t, ht⟩ := templated_append_text _ "\n\n" (templated_append_text _ "\x7d"
      (templated_structLoop false (maxNameLength fields) fields.length fields 0
        (fun color => "" ++ ("Struct with " ++ color ++ fmtD fields.length ++ colorReset ++
          " fields:\n\n") ++ "\x7b" ++ "\n")
        (templated_append_text _ _ (templated_append_text _ _ (templated_append _ _
          (templated_text "") (templated_append_text _ _ (templated_append_text _ _
            (templated_append_text _ _ (templated_append _ _ (templated_text _)
              templated_color)))))))))
    exact ⟨t, fun color => Eq.trans (by simp [formatStruct]) (ht color)⟩
  | true =>
    obtain ⟨t, ht⟩ := templated_append_text _ "\x7d"
      (templated_structLoop true (maxNameLength fields) fields.length fields 0
        (fun _ => "" ++ "\x7b") (templated_text _))
    exact ⟨t, fun color => Eq.trans (by simp [formatStruct]) (ht color)⟩

theorem templated_listHead (elType : GoType) (len : Nat) (listType : String) (inline : Bool) :
    Templated (fun color => formatListHead elType len color listType inline) := by
  cases inline with
  | true => exact ⟨[some ("" ++ "\x7b")], fun color => by simp [formatListHead, fill]⟩
  | false =>
    obtain ⟨t, ht⟩ := templated_append _ _ (templated_text "")
      (templated_append_text _ ":\n\n" (templated_append_text _ colorReset
        (templated_append_text _ elType.string (templated_append _ _
          (templated_append_text _ " elements of type " (templated_append_text _ colorReset
            (templated_append_text _ (fmtD len) (templated_append _ _
              (templated_text (listType ++ " with ")) templated_color))))
          templated_color))))
    exact ⟨t, fun color => Eq.trans (by simp [formatListHead]) (ht color)⟩

theorem templated_mapHead (keyT : GoType) (valueType : String) (len : Nat) (inline : Bool) :
    Templated (fun color => formatMapHead keyT valueType len color inline) := by
  cases inline with
  | true => exact ⟨[some ("" ++ "\x7b")], fun color => by simp [formatMapHead, fill]⟩
  | false =>
    obtain ⟨t, ht⟩ := templated_append _ _ (templated_text "")
      (templated_append_text _ ":\n\n" (templated_append_text _ colorReset
        (templated_append_text _ valueType (templated_append _ _
          (templated_append_text _ ", value type " (templated_append_text _ colorReset
            (templated_append_text _ keyT.string (templated_append _ _
              (templated_append_text _ " elements, key type "
                (templated_append_text _ colorReset (templated_append_text _ (fmtD len)
                  (templated_append _ _ (templated_text "Map: ") templated_color))))
              templated_color))))
          templated_color))))
    exact ⟨t, fun color => Eq.trans (by simp [formatMapHead]) (ht color)⟩

theorem templatedE_listTail (inline : Bool) (f : PPColor → Except Panic String)
    (hf : TemplatedE f) :
    TemplatedE (fun color => (f color).map (formatListTail inline)) := by
  rcases templatedE_cases f hf with ⟨e, he⟩ | ⟨g, hg, hok⟩
  · exact ⟨.error e, fun color => by beta_reduce; rw [he color]; rfl⟩
  · cases inline with
    | true =>
      obtain ⟨T, hT⟩ := templatedE_ok _ (templated_append_text g "\x7d" hg)
      exact ⟨T, fun color => Eq.trans (by beta_reduce; rw [hok color]; rfl) (hT color)⟩
    | false =>
      obtain ⟨T, hT⟩ := templatedE_ok _ (templated_append_text g "\n" hg)
      exact ⟨T, fun color => Eq.trans (by beta_reduce; rw [hok color]; rfl) (hT color)⟩

theorem templated_indexed (found : Option GoValue)
    (h : ∀ v, found = some v → TemplatedE (fun color => formatValue v color true)) :
    TemplatedE (fun color => formatIndexed found color) := by
  cases found with
  | none => exact ⟨.error .zeroValueInterface, fun color => by simp [formatIndexed, Except.map]⟩
  | some v =>
    obtain ⟨T, hT⟩ := h v rfl
    exact ⟨T, fun color => Eq.trans (by simp [formatIndexed]) (hT color)⟩

theorem templated_formatValue :
    ∀ v : GoValue, ∀ inline : Bool, TemplatedE (fun color => formatValue v color inline) := by
  intro v
  induction v using GoValue.induction with
  | nil =>
    intro inline
    cases inline with
    | true => exact ⟨.ok [some "<nil>"], fun color => by simp [formatValue, Except.map, fill]⟩
    | false => exact ⟨.error .zeroValueType, fun color => by simp [formatValue, Except.map]⟩
  | scalar kind type repr =>
    intro inline
    cases inline with
    | true => exact ⟨.ok [some repr], fun color => by simp [formatValue, Except.map, fill]⟩
    | false =>
      obtain ⟨T, hT⟩ := templatedE_ok _ (templated_append_text _ ")\n\n"
        (templated_append_text _ colorReset (templated_append_text _ type.string
          (templated_append _ _ (templated_text (repr ++ " (")) templated_color))))
      exact ⟨T, fun color => Eq.trans (by simp [formatValue]) (hT color)⟩
  | array elem items ih =>
    intro inline
    obtain ⟨T, hT⟩ := templatedE_listTail inline _ (templated_listLoop inline
      (fmtD items.length).length items.length items (fun v hv => ih v hv true) 0 _
      (templated_listHead elem items.length "Array" inline))
    exact ⟨T, fun color => Eq.trans (by simp [formatValue]) (hT color)⟩
  | slice elem items ih =>
    intro inline
    obtain ⟨T, hT⟩ := templatedE_listTail inline _ (templated_listLoop inline
      (fmtD items.length).length items.length items (fun v hv => ih v hv true) 0 _
      (templated_listHead elem items.length "Slice" inline))
    exact ⟨T, fun color => Eq.trans (by simp [formatValue]) (hT color)⟩
  | map key elem entries ih =>
    intro inline
    by_cases hpos : 0 < entries.length
    · obtain ⟨T, hT⟩ := templatedE_listTail inline _ (templated_mapLoop inline
        entries.length entries
        (fun e he => templated_indexed e.2 (fun v hv => ih e he v hv true)) 0 _
        (templated_mapHead key elem.name entries.length inline))
      exact ⟨T, fun color => Eq.trans (by simp [formatValue, hpos]) (hT color)⟩
    · exact ⟨.error .indexOutOfRange, fun color => by simp [formatValue, hpos, Except.map]⟩
  | struct fields _ =>
    intro inline
    obtain ⟨T, hT⟩ := templatedE_ok _ (templated_formatStruct inline fields)
    exact ⟨T, fun color => Eq.trans (by simp [formatValue]) (hT color)⟩

theorem formatList_children (elType : GoType) (items : List GoValue) (color : PPColor)
    (listType : String) (inline : Bool) :
    formatList elType items color listType inline =
      (items.mapM fun w => formatValue w color true).map fun rendered =>
        formatListTail inline (formatListHead elType items.length color listType inline ++
          if inline then ", ".intercalate (rendered.enum.map (listFragment color))
          else String.join (rendered.enum.map (listLine color (fmtD items.length).length))) := by
  simp only [formatList]
  cases inline with
  | false =>
    rw [formatListLoop_block color _ _ items]
    cases (items.mapM fun w => formatValue w color true) with
    | error e => rfl
    | ok rendered => simp [Except.map, List.enum]
  | true =>
    rw [formatListLoop_inline color _ _ items 0 _ (by simp)]
    cases (items.mapM fun w => formatValue w color true) with
    | error e => rfl
    | ok rendered => simp [Except.map, List.enum]

theorem formatMap_children (keyT elemT : GoType) (entries : List (String × Option GoValue))
    (color : PPColor) (inline : Bool) :
    formatMap keyT elemT entries color inline =
      if 0 < entries.length then
        (entries.mapM fun e => formatIndexed e.2 color).map fun rendered =>
          formatListTail inline (formatMapHead keyT elemT.name entries.length color inline ++
            if inline then ", ".intercalate ((entries.zip rendered).map (mapFragment color))
            else String.join ((entries.zip rendered).map (mapLine color)))
      else .error .indexOutOfRange := by
  simp only [formatMap]
  split
  · cases inline with
    | false =>
      rw [formatMapLoop_block color _ entries]
      cases (entries.mapM fun e => formatIndexed e.2 color) with
      | error e => rfl
      | ok rendered => simp [Except.map]
    | true =>
      rw [formatMapLoop_inline color _ entries 0 _ (by simp)]
      cases (entries.mapM fun e => formatIndexed e.2 color) with
      | error e => rfl
      | ok rendered => simp [Except.map]
  · rfl

/-- C14: the colour is threaded unchanged through the traversal.  For every
value and mode there is one template, a text with slots, such that for every
colour the result of `formatValue` is the template with that colour in all its
slots (or, for every colour, the same panic): the result for a colour `c2` is
the result for `c1` with `c2` in the place of every marker `c1` that the
formatter emitted.  When `formatValue` returns for a colour marker `color` on a
value whose texts hold no ESC character, the escape sequences of the output
are pairs `color`, Reset, so each of them is `color` or Reset.  And every
recursive call receives the colour of its caller: the rendering of an array, a
slice or a map with the colour `color` is put together from the renderings
`formatValue(child, color, Inline)` of its items, or of the values that
`MapIndex` finds, with that same `color`. -/
theorem formatValue_color_threaded (v : GoValue) (inline : Bool) :
    (∃ template : Except Panic (List (Option String)),
      ∀ color : PPColor, formatValue v color inline = template.map (fill color)) ∧
    (∀ (color : PPColor) (s : String), IsColorMarker color → v.escapeFree = true →
      formatValue v color inline = .ok s →
      (∃ k : Nat, escapeSeqs s = (List.replicate k [color, colorReset]).flatten) ∧
      ∀ e ∈ escapeSeqs s, e = color ∨ e = colorReset) ∧
    (∀ (color : PPColor) (elem : GoType) (items : List GoValue),
      formatValue (.array elem items) color inline =
        (items.mapM fun w => formatValue w color true).map fun rendered =>
          formatListTail inline (formatListHead elem items.length color "Array" inline ++
            if inline then ", ".intercalate (rendered.enum.map (listFragment color))
            else String.join (rendered.enum.map (listLine color (fmtD items.length).length)))) ∧
    (∀ (color : PPColor) (elem : GoType) (items : List GoValue),
      formatValue (.slice elem items) color inline =
        (items.mapM fun w => formatValue w color true).map fun rendered =>
          formatListTail inline (formatListHead elem items.length color "Slice" inline ++
            if inline then ", ".intercalate (rendered.enum.map (listFragment color))
            else String.join (rendered.enum.map (listLine color (fmtD items.length).length)))) ∧
    (∀ (color : PPColor) (key elem : GoType) (entries : List (String × Option GoValue)),
      formatValue (.map key elem entries) color inline =
        if 0 < entries.length then
          (entries.mapM fun e => formatIndexed e.2 color).map fun rendered =>
            formatListTail inline (formatMapHead key elem.name entries.length color inline ++
              if inline then ", ".intercalate ((entries.zip rendered).map (mapFragment color))
              else String.join ((entries.zip rendered).map (mapLine color)))
        else .error .indexOutOfRange) ∧
    (∀ (color : PPColor) (w : GoValue), formatIndexed (some w) color = formatValue w color true) := by
  refine ⟨templated_formatValue v inline, ?_, ?_, ?_, ?_, fun _ _ => by simp [formatIndexed]⟩
  · intro color s hc hv h
    obtain ⟨k, hk⟩ := balanced_formatValue color hc v hv inline s h
    have hs : escapeSeqs s = (List.replicate k [color, colorReset]).flatten := by
      have := hk []
      simpa [escapeSeqs, escapeSeqsAux] using this
    refine ⟨⟨k, hs⟩, fun e he => ?_⟩
    rw [hs] at he
    simp only [List.mem_flatten, List.mem_replicate] at he
    obtain ⟨l, ⟨_, rfl⟩, hel⟩ := he
    simpa using hel
  · intro color elem items
    rw [formatValue_array, formatList_children]
  · intro color elem items
    rw [formatValue_slice, formatList_children]
  · intro color key elem entries
    rw [formatValue_map, formatMap_children]

/-- Witness of C14: the Block rendering of a slice that holds an int and a map,
in blue and in red, from one template; its escape sequences in blue are five
pairs blue, Reset. -/
theorem formatValue_color_threaded_witness :
    IsColorMarker colorBlue ∧ sampleSlice.escapeFree = true ∧
    formatValue sampleSlice colorBlue false =
      .ok ("Slice with \x1b[34m2\x1b[0m elements of type \x1b[34minterface \x7b\x7d\x1b[0m:\n\n" ++
        "\x1b[34m[0]\x1b[0m 7\n\x1b[34m[1]\x1b[0m \x7b\x1b[34m[\"a\"]\x1b[0m 1\x7d\n\n") ∧
    (∀ e ∈ escapeSeqs
        ("Slice with \x1b[34m2\x1b[0m elements of type \x1b[34minterface \x7b\x7d\x1b[0m:\n\n" ++
          "\x1b[34m[0]\x1b[0m 7\n\x1b[34m[1]\x1b[0m \x7b\x1b[34m[\"a\"]\x1b[0m 1\x7d\n\n"),
      e = colorBlue ∨ e = colorReset) ∧
    escapeSeqs
        ("Slice with \x1b[34m2\x1b[0m elements of type \x1b[34minterface \x7b\x7d\x1b[0m:\n\n" ++
          "\x1b[34m[0]\x1b[0m 7\n\x1b[34m[1]\x1b[0m \x7b\x1b[34m[\"a\"]\x1b[0m 1\x7d\n\n") =
      (List.replicate 5 [colorBlue, colorReset]).flatten ∧
    (∃ template : Except Panic (List (Option String)),
      formatValue sampleSlice colorBlue false = template.map (fill colorBlue) ∧
      formatValue sampleSlice colorRed false = template.map (fill colorRed)) := by
  have hc : IsColorMarker colorBlue := ⟨['[', '3', '4'], rfl, by decide⟩
  obtain ⟨template, ht⟩ := (formatValue_color_threaded sampleSlice false).1
  exact ⟨hc, by decide, by decide,
    ((formatValue_color_threaded sampleSlice false).2.1 colorBlue _ hc (by decide)
      (by decide)).2,
    by decide, template, ht colorBlue, ht colorRed⟩

/-! ## Values on which the formatter panics (C11) -/

/-- C11 (the code faults): `formatValue` does not return a text on every value.
On the nil interface in Block mode it panics in `reflect.Value.Type`, called on
the zero `Value`; on a map without entries it panics at `keys[0]`, in either
mode; on a map with a key that `MapIndex` does not find (the one key NaN) it
panics in `reflect.Value.Interface`, called on the zero `Value`, in either
mode; and the panic of a child is the panic of the whole call, as for the
slice that holds one empty map. -/
theorem formatValue_panics (color : PPColor) :
    formatValue .nil color false = .error .zeroValueType ∧
    (∀ (keyT elemT : GoType) (inline : Bool),
      formatValue (.map keyT elemT []) color inline = .error .indexOutOfRange) ∧
    (∀ (inline : Bool),
      formatValue (.slice ⟨"", "map[string]int"⟩
        [.map ⟨"string", "string"⟩ ⟨"int", "int"⟩ []]) color inline =
        .error .indexOutOfRange) ∧
    (∀ (inline : Bool),
      formatValue (.map ⟨"float64", "float64"⟩ ⟨"int", "int"⟩ [("NaN", none)]) color inline =
        .error .zeroValueInterface) := by
  refine ⟨by simp [formatValue], fun _ _ _ => by simp [formatValue], fun inline => ?_,
    fun inline => ?_⟩
  · cases inline <;> simp [formatValue, formatListLoop, Except.map]
  · cases inline <;> simp [formatValue, formatMapLoop, formatIndexed, Except.map]

end PPrint
